import Mathlib

/-!
Formal model of the guitar-tab-transcriber core: the fretboard position
resolver (`guitar_mapper.py`), the confidence scorer
(`confidence_scorer.py`), the multimodal fusion engine
(`multimodal_fusion.py`), the position optimizer (`position_optimizer.py`)
and the tab renderer (`tab_generator.py`), shallowly embedded in Lean.

Conventions of the embedding:
* Python floats are modelled by `ℝ`; `float('inf')` by `⊤ : WithTop ℝ`.
* A Python dict note is modelled by the structure `NoteD` whose fields are
  `Option`-valued: `none` models an absent key (a key explicitly present
  with value `None` is identified with an absent key; the code only ever
  distinguishes the two on its *input* dicts, never on dicts it builds).
* Code that can raise (`ZeroDivisionError` in `_weighted_fusion`,
  `IndexError` from list indexing) is modelled with `Option`/failure
  results, `none` meaning the exception propagates.
* `np.log2` is modelled by `Real.logb 2` (all call sites are guarded so the
  argument is positive).
-/

open scoped Classical

noncomputable section

/-- A note dictionary as passed around by the fusion pipeline.  Every field
the Python code reads or writes on a note dict appears here, `Option`-valued
(`none` = key absent). -/
structure NoteD where
  time : Option ℝ := none
  timestamp : Option ℝ := none
  duration : Option ℝ := none
  frequency : Option ℝ := none
  string : Option ℤ := none
  fret : Option ℤ := none
  confidence : Option ℝ := none
  played : Option Bool := none
  strumming : Option Bool := none
  finger : Option ℕ := none
  source : Option String := none
  audio_confidence : Option ℝ := none
  video_confidence : Option ℝ := none
  agreement : Option ℝ := none
  audio_frequency_raw : Option ℝ := none
  correction : Option String := none
  string_video : Option ℤ := none
  fret_video : Option ℤ := none
  video_position : Option (Option ℤ × Option ℤ) := none
  alternate_fingering : Option Bool := none
  conflict_resolved : Option Bool := none

instance : Inhabited NoteD := ⟨{}⟩

/-- A context dictionary (`audio_context` / `video_context`): the sub-signal
keys the scorer reads. -/
structure Ctx where
  onset_strength : Option ℝ := none
  frequency_variance : Option ℝ := none
  position_clarity : Option ℝ := none
  picking_detected : Option Bool := none
  calibration_quality : Option ℝ := none

/-- The empty context dictionary `{}`. -/
def emptyCtx : Ctx := {}

/-! ## config/guitar_config.py -/

/-- `STANDARD_TUNING`: (note name, octave) per string, low E first. -/
def STANDARD_TUNING : List (String × ℤ) :=
  [("E", 2), ("A", 2), ("D", 3), ("G", 3), ("B", 3), ("E", 4)]

def NUM_FRETS : ℕ := 22

def NUM_STRINGS : ℕ := 6

/-- `PITCH_TOLERANCE` (cents). -/
def PITCH_TOLERANCE : ℝ := 50

/-- `FRET_PENALTY_WEIGHT`. -/
def FRET_PENALTY_WEIGHT : ℝ := 0.5

/-- The `note_offsets` dictionary (semitones from A within the octave),
shared verbatim by `guitar_mapper._note_to_freq` and
`confidence_scorer._calculate_frequency_from_position`.  Lookup of a name
outside the twelve keys would be a Python `KeyError`; the table is total
here with junk value `0` on such names (never reached: the tuning only uses
valid names). -/
def noteOffsets (note : String) : ℤ :=
  if note = "C" then -9 else if note = "C#" then -8
  else if note = "D" then -7 else if note = "D#" then -6
  else if note = "E" then -5 else if note = "F" then -4
  else if note = "F#" then -3 else if note = "G" then -2
  else if note = "G#" then -1 else if note = "A" then 0
  else if note = "A#" then 1 else if note = "B" then 2
  else 0

/-! ## src/fusion/confidence_scorer.py -/

/-- Weight constants from `ConfidenceScorer.__init__` (`self.weights`). -/
def wPitchConfidence : ℝ := 0.4
def wOnsetClarity : ℝ := 0.3
def wFrequencyStability : ℝ := 0.3
def wHandDetection : ℝ := 0.3
def wFingerMapping : ℝ := 0.3
def wPickingDetection : ℝ := 0.2
def wCalibrationQuality : ℝ := 0.2

/-- `ConfidenceScorer.score_audio_prediction`: weighted sum of the available
sub-signals; the `scores` list collects one entry per present signal, and the
fallback `audio_note.get('confidence', 0.5)` is returned only when the list
stayed empty. -/
def score_audio_prediction (note : NoteD) (ctx : Ctx) : ℝ :=
  let scores : List ℝ :=
    (note.confidence.elim [] fun c => [c * wPitchConfidence]) ++
    (ctx.onset_strength.elim [] fun o => [min 1.0 (o / 10.0) * wOnsetClarity]) ++
    (ctx.frequency_variance.elim [] fun v =>
      [(1.0 / (1.0 + v / 10.0)) * wFrequencyStability])
  if scores.isEmpty then note.confidence.getD 0.5 else scores.sum

/-- `ConfidenceScorer.score_video_prediction`. -/
def score_video_prediction (note : NoteD) (ctx : Ctx) : ℝ :=
  let scores : List ℝ :=
    (note.confidence.elim [] fun c => [c * wHandDetection]) ++
    (ctx.position_clarity.elim [] fun m => [m * wFingerMapping]) ++
    (ctx.picking_detected.elim [] fun p =>
      [(if p then (1.0 : ℝ) else 0.3) * wPickingDetection]) ++
    (ctx.calibration_quality.elim [] fun q => [q * wCalibrationQuality])
  if scores.isEmpty then note.confidence.getD 0.6 else scores.sum

/-- Python indexing `STANDARD_TUNING[string]`: a non-negative index reads
directly, an index in `[-6, -1]` wraps, anything below `-6` raises
`IndexError` (`none`).  (Indices `≥ 6` are handled by the caller before
indexing.) -/
def tuningAt (s : ℤ) : Option (String × ℤ) :=
  if 0 ≤ s ∧ s < 6 then STANDARD_TUNING.get? s.toNat
  else if -6 ≤ s ∧ s < 0 then STANDARD_TUNING.get? (s + 6).toNat
  else none

/-- `ConfidenceScorer._calculate_frequency_from_position`: `0` for a string
index beyond the tuning, otherwise
`440·2^((note_offset + (octave-4)·12 + fret)/12)`; `none` models the
`IndexError` a Python index below `-6` would raise. -/
def calculate_frequency_from_position (string fret : ℤ) : Option ℝ :=
  if 6 ≤ string then some 0
  else
    match tuningAt string with
    | none => none
    | some (note, octave) =>
        some (440.0 * (2 : ℝ) ^
          (((noteOffsets note + (octave - 4) * 12 + fret : ℤ) : ℝ) / 12))

/-- Result dict of `ConfidenceScorer.compare_predictions`. -/
structure Comparison where
  string_match : Bool
  fret_match : Bool
  frequency_diff_cents : ℝ
  agreement : ℝ
  audio_freq : ℝ
  video_freq : ℝ

/-- `ConfidenceScorer.compare_predictions`; `none` models the `IndexError`
raised for a wildly negative video string index. -/
def compare_predictions (a v : NoteD) : Option Comparison :=
  let stringMatch : Bool := a.string = v.string
  let fretMatch : Bool := a.fret = v.fret
  match calculate_frequency_from_position (v.string.getD 0) (v.fret.getD 0) with
  | none => none
  | some videoFreq =>
      let audioFreq : ℝ := a.frequency.getD 0
      let freqDiffCents : ℝ :=
        if audioFreq > 0 ∧ videoFreq > 0 then
          |1200 * Real.logb 2 (audioFreq / videoFreq)|
        else 999
      let agreement : ℝ :=
        if stringMatch ∧ fretMatch then 1.0
        else if stringMatch then 0.5
        else if freqDiffCents < 100 then 0.7
        else 0.0
      some ⟨stringMatch, fretMatch, freqDiffCents, agreement, audioFreq, videoFreq⟩

/-! ## src/fusion/multimodal_fusion.py -/

/-- `MultimodalFusion.__init__` default `audio_weight`. -/
def audioWeight : ℝ := 0.4

/-- `MultimodalFusion.__init__` default `video_weight`. -/
def videoWeight : ℝ := 0.6

/-- `MultimodalFusion.__init__` `self.time_tolerance`. -/
def timeTolerance : ℝ := 0.15

/-- `audio_note.get('time', 0)` as used by the time matcher. -/
def audioTime (a : NoteD) : ℝ := a.time.getD 0

/-- `video_note.get('time', video_note.get('timestamp', 0))`. -/
def videoTime (v : NoteD) : ℝ := (v.time.orElse fun _ => v.timestamp).getD 0

/-- Inner loop of `_match_notes_by_time`: scan the enumerated audio notes,
skip indices already in `used`, and keep the first index whose time
difference to `vt` is below the tolerance and strictly below the running
minimum.  The accumulator holds `(index, note, time_diff)` of the best
candidate so far (`none` = `min_time_diff` still infinite). -/
def findBestAudioLoop (l : List (ℕ × NoteD)) (used : Finset ℕ) (vt : ℝ)
    (best : Option (ℕ × NoteD × ℝ)) : Option (ℕ × NoteD × ℝ) :=
  match l with
  | [] => best
  | (i, a) :: rest =>
      if i ∈ used then findBestAudioLoop rest used vt best
      else
        let d := |audioTime a - vt|
        if d < timeTolerance ∧ (∀ b ∈ best, d < b.2.2) then
          findBestAudioLoop rest used vt (some (i, a, d))
        else findBestAudioLoop rest used vt best

/-- Outer loop of `_match_notes_by_time` over the enumerated video notes:
returns the matched pairs (in video order) together with the final
`used_audio` and `used_video` index sets. -/
def matchNotesLoop (audio : List NoteD) (used : Finset ℕ) :
    List (ℕ × NoteD) → List (NoteD × NoteD) × Finset ℕ × Finset ℕ
  | [] => ([], used, ∅)
  | (vi, v) :: rest =>
      match findBestAudioLoop audio.enum used (videoTime v) none with
      | some (i, a, _) =>
          let r := matchNotesLoop audio (insert i used) rest
          ((a, v) :: r.1, r.2.1, insert vi r.2.2)
      | none => matchNotesLoop audio used rest

/-- `MultimodalFusion._match_notes_by_time`: greedy nearest-time matching;
returns `(matched_pairs, unmatched_audio, unmatched_video)`. -/
def match_notes_by_time (audio video : List NoteD) :
    List (NoteD × NoteD) × List NoteD × List NoteD :=
  let r := matchNotesLoop audio ∅ video.enum
  (r.1,
   (audio.enum.filter fun p => p.1 ∉ r.2.1).map Prod.snd,
   (video.enum.filter fun p => p.1 ∉ r.2.2).map Prod.snd)

/-- `MultimodalFusion._merge_agreeing_notes` (default `agreement = 1.0` is
supplied by the callers). -/
def merge_agreeing_notes (a v : NoteD) (audioConf videoConf agreement : ℝ) :
    NoteD :=
  let totalWeight := audioWeight * audioConf + videoWeight * videoConf
  let fused : NoteD :=
    { time := some ((v.time.orElse fun _ =>
        (v.timestamp.orElse fun _ => a.time)).getD 0),
      string := v.string.orElse fun _ => a.string,
      fret := v.fret.orElse fun _ => a.fret,
      frequency := a.frequency,
      confidence := some (totalWeight * agreement),
      source := some "fused",
      audio_confidence := some audioConf,
      video_confidence := some videoConf,
      agreement := some agreement }
  let fused := match a.duration with
    | some d => { fused with duration := some d }
    | none => fused
  let fused := match v.finger with
    | some f => { fused with finger := some f }
    | none => fused
  if v.strumming.getD false then { fused with strumming := some true } else fused

/-- `MultimodalFusion._resolve_octave_error`: start from a copy of the video
note, trust its position, boost the video confidence and remember the raw
audio frequency. -/
def resolve_octave_error (a v : NoteD) (videoConf : ℝ) : NoteD :=
  let note : NoteD :=
    { v with
      time := some ((a.time.orElse fun _ =>
        (v.time.orElse fun _ => v.timestamp)).getD 0),
      confidence := some (videoConf * videoWeight * 1.2),
      source := some "octave_corrected",
      audio_frequency_raw := a.frequency,
      correction := some "octave_error_fixed" }
  match a.duration with
  | some d => { note with duration := some d }
  | none => note

/-- `MultimodalFusion._resolve_position_conflict`. -/
def resolve_position_conflict (a v : NoteD) (audioConf videoConf : ℝ) : NoteD :=
  let note : NoteD :=
    { v with
      time := some ((a.time.orElse fun _ =>
        (v.time.orElse fun _ => v.timestamp)).getD 0),
      frequency := a.frequency,
      confidence := some (audioConf * audioWeight + videoConf * videoWeight),
      source := some "position_corrected",
      alternate_fingering := some true }
  match a.duration with
  | some d => { note with duration := some d }
  | none => note

/-- `MultimodalFusion._weighted_fusion`: `none` models the
`ZeroDivisionError` raised when
`audio_conf·audio_weight + video_conf·video_weight` is zero (the two
normalized shares are divided by it with no guard). -/
def weighted_fusion (a v : NoteD) (audioConf videoConf : ℝ) : Option NoteD :=
  let totalConf := audioConf * audioWeight + videoConf * videoWeight
  if totalConf = 0 then none
  else
    let videoNorm := (videoConf * videoWeight) / totalConf
    let note : NoteD :=
      if videoNorm > 0.6 then { v with source := some "video_weighted" }
      else
        { a with
          source := some "audio_weighted",
          video_position := some (v.string, v.fret) }
    some { note with
      confidence := some (totalConf * 0.8),
      audio_confidence := some audioConf,
      video_confidence := some videoConf,
      conflict_resolved := some true }

/-- `MultimodalFusion._fuse_note_pair`: the five-way case analysis.  `none`
models an exception escaping (from `compare_predictions` or
`_weighted_fusion`); every normal path returns a note. -/
def fuse_note_pair (a v : NoteD) (audioCtx videoCtx : Ctx) : Option NoteD :=
  let audioConf := score_audio_prediction a audioCtx
  let videoConf := score_video_prediction v videoCtx
  match compare_predictions a v with
  | none => none
  | some comp =>
      if comp.string_match ∧ comp.fret_match then
        some (merge_agreeing_notes a v audioConf videoConf 1.0)
      else if comp.frequency_diff_cents > 1100 ∧ comp.frequency_diff_cents < 1300 then
        some (resolve_octave_error a v videoConf)
      else if comp.frequency_diff_cents < 50 then
        some (resolve_position_conflict a v audioConf videoConf)
      else if comp.agreement < 0.5 then
        if videoConf > audioConf * 1.5 then
          some { v with
            confidence := some (videoConf * videoWeight),
            source := some "video_priority" }
        else if audioConf > videoConf * 1.5 then
          let note : NoteD :=
            { a with
              confidence := some (audioConf * audioWeight),
              source := some "audio_priority" }
          some (if v.string.isSome ∧ v.fret.isSome then
            { note with string_video := v.string, fret_video := v.fret }
          else note)
        else weighted_fusion a v audioConf videoConf
      else
        some (merge_agreeing_notes a v audioConf videoConf comp.agreement)

/-- The matched-pair loop of `fuse_predictions`: fuse each pair in order; an
exception in any pair (`none`) propagates out of the whole call.  (The
Python `if fused_note:` guard never skips: `_fuse_note_pair` always returns
a non-empty dict on a normal path.) -/
def fusePairsAll (audioCtx videoCtx : Ctx) :
    List (NoteD × NoteD) → Option (List NoteD)
  | [] => some []
  | p :: ps =>
      match fuse_note_pair p.1 p.2 audioCtx videoCtx,
            fusePairsAll audioCtx videoCtx ps with
      | some n, some ns => some (n :: ns)
      | _, _ => none

/-- `fused_notes.sort(key=lambda n: n.get('time', 0))`: Python's stable
ascending sort, modelled by insertion sort on the same key. -/
def sortByTime (l : List NoteD) : List NoteD :=
  l.insertionSort fun x y => x.time.getD 0 ≤ y.time.getD 0

/-- `MultimodalFusion.fuse_predictions`; `none` models an uncaught exception
(only possible via `_weighted_fusion`'s division or `compare_predictions`'
indexing). -/
def fuse_predictions (audio video : List NoteD) (audioCtx videoCtx : Ctx) :
    Option (List NoteD) :=
  let m := match_notes_by_time audio video
  match fusePairsAll audioCtx videoCtx m.1 with
  | none => none
  | some matchedFused =>
      let audioOnly := m.2.1.filterMap fun a =>
        let audioConf := score_audio_prediction a audioCtx
        if audioConf > 0.5 then
          some { a with
            source := some "audio_only",
            confidence := some (audioConf * audioWeight) }
        else none
      let videoOnly := m.2.2.filterMap fun v =>
        let videoConf := score_video_prediction v videoCtx
        if videoConf > 0.4 ∧ v.played.getD false then
          some { v with
            source := some "video_only",
            confidence := some (videoConf * videoWeight) }
        else none
      some (sortByTime (matchedFused ++ audioOnly ++ videoOnly))

/-! ## src/transcription/guitar_mapper.py -/

/-- One `fretboard` cell built by `GuitarMapper._build_fretboard`. -/
structure CellInfo where
  string : ℕ
  fret : ℕ
  frequency : ℝ

/-- `GuitarMapper._note_to_freq`. -/
def note_to_freq (note : String) (octave : ℤ) : ℝ :=
  440.0 * (2 : ℝ) ^ (((noteOffsets note + (octave - 4) * 12 : ℤ) : ℝ) / 12)

/-- `GuitarMapper._build_fretboard` for the given tuning: per string, a cell
for every fret in `[0, NUM_FRETS]` at `base·2^(fret/12)`. -/
def build_fretboard (tuning : List (String × ℤ)) : List (List CellInfo) :=
  tuning.enum.map fun si =>
    (List.range (NUM_FRETS + 1)).map fun fret =>
      { string := si.1, fret := fret,
        frequency := note_to_freq si.2.1 si.2.2 * (2 : ℝ) ^ ((fret : ℝ) / 12) }

/-- The standard-tuning fretboard cells in iteration order (strings in
ascending index order, frets ascending within a string). -/
def fretboardCells : List CellInfo := (build_fretboard STANDARD_TUNING).flatten

/-- `GuitarMapper._calculate_position_score` (lower is better, `⊤` models
`float('inf')`): disqualify non-positive table frequencies and cells more
than `PITCH_TOLERANCE` cents away, then add the fret penalty, the register
preference and, when a last position exists, the continuity penalty. -/
def calculate_position_score (lastPos : Option (ℕ × ℕ)) (cell : CellInfo)
    (frequency : ℝ) : WithTop ℝ :=
  if cell.frequency ≤ 0 then ⊤
  else
    let centsDiff := |1200 * Real.logb 2 (frequency / cell.frequency)|
    if centsDiff > PITCH_TOLERANCE then ⊤
    else
      let score := centsDiff + (cell.fret : ℝ) * FRET_PENALTY_WEIGHT
      let stringPreference : ℝ :=
        if frequency > 300 then (5 - (cell.string : ℝ)) * 2
        else (cell.string : ℝ) * 2
      let score := score + stringPreference
      let score := score +
        (match lastPos with
         | some lp =>
             |(cell.string : ℝ) - (lp.1 : ℝ)| * 3 +
             |(cell.fret : ℝ) - (lp.2 : ℝ)| * 0.5
         | none => 0)
      (score : WithTop ℝ)

/-- The result dict of `GuitarMapper._find_best_position`: the winning cell
copied, plus the detected and corrected (octave-adjusted) frequencies. -/
structure BestMatch where
  string : ℕ
  fret : ℕ
  frequency : ℝ
  detected_freq : ℝ
  corrected_freq : ℝ

/-- One `score < best_score` comparison step of `_find_best_position`'s
innermost loop. -/
def stepCell (lastPos : Option (ℕ × ℕ)) (f testFreq : ℝ)
    (st : Option BestMatch × WithTop ℝ) (cell : CellInfo) :
    Option BestMatch × WithTop ℝ :=
  let score := calculate_position_score lastPos cell testFreq
  if score < st.2 then
    (some ⟨cell.string, cell.fret, cell.frequency, f, testFreq⟩, score)
  else st

/-- `GuitarMapper._find_best_position` (standard tuning): try the octave
candidates `[f, f/2, f·2]`, skipping those outside the 80–1200 Hz guitar
range, and keep the globally minimal-score cell. -/
def find_best_position (lastPos : Option (ℕ × ℕ)) (f : ℝ) : Option BestMatch :=
  ([f, f / 2, f * 2].foldl
    (fun st testFreq =>
      if testFreq < 80 ∨ testFreq > 1200 then st
      else fretboardCells.foldl (stepCell lastPos f testFreq) st)
    (none, ⊤)).1

/-! ## src/fusion/position_optimizer.py -/

/-- One event dict emitted by `PositionOptimizer.group_into_chords`: field
`etype` models the `'type'` key (`"chord"` or `"note"`), `notes`/`num_notes`
are set on chord events and `note` on single-note events. -/
structure GEvent where
  etype : String
  notes : List NoteD := []
  note : Option NoteD := none
  time : ℝ
  num_notes : Option ℕ := none

/-- Finalizing a (non-empty) group in `group_into_chords`: more than one
member makes a chord event, otherwise a single-note event. -/
def finalizeGroup (group : List NoteD) (ctime : ℝ) : GEvent :=
  if group.length > 1 then
    { etype := "chord", notes := group, time := ctime,
      num_notes := some group.length }
  else
    { etype := "note", note := group.head?, time := ctime }

/-- The accumulation loop of `group_into_chords` over the already-sorted
tail: extend the current group while the note's time is within the window
of the group's anchor `ctime`, otherwise flush and start a new group; the
final open group is flushed at the end. -/
def chordLoop (w : ℝ) : List NoteD → List NoteD → ℝ → List GEvent
  | [], group, ctime => [finalizeGroup group ctime]
  | n :: rest, group, ctime =>
      if |n.time.getD 0 - ctime| < w then
        chordLoop w rest (group ++ [n]) ctime
      else
        finalizeGroup group ctime :: chordLoop w rest [n] (n.time.getD 0)

/-- `PositionOptimizer.group_into_chords` (default `time_window = 0.05`). -/
def group_into_chords (notes : List NoteD) (timeWindow : ℝ) : List GEvent :=
  match sortByTime notes with
  | [] => []
  | s :: rest => chordLoop timeWindow rest [s] (s.time.getD 0)

/-! ## src/transcription/tab_generator.py -/

/-- Python `int()` on a float: truncation toward zero. -/
def pyInt (x : ℝ) : ℤ := if 0 ≤ x then ⌊x⌋ else ⌈x⌉

/-- Python list indexing `l[i]`: non-negative indices read directly, indices
in `[-len, -1]` wrap, anything else raises `IndexError` (`none`). -/
def pyIndex (n : ℕ) (i : ℤ) : Option ℕ :=
  if 0 ≤ i ∧ i < n then some i.toNat
  else if -(n : ℤ) ≤ i ∧ i < 0 then some (i + n).toNat
  else none

/-- Python `l[i]` (read). -/
def pyGet {α : Type} (l : List α) (i : ℤ) : Option α :=
  (pyIndex l.length i).bind fun k => l.get? k

/-- Python `l[i] = x` (write). -/
def pySet {α : Type} (l : List α) (i : ℤ) (x : α) : Option (List α) :=
  (pyIndex l.length i).map fun k => l.set k x

/-- Python `max` over a list built from a non-empty comprehension (the empty
case is unreachable at the call site in `generate`). -/
def pyMaxList : List ℝ → ℝ
  | [] => 0
  | x :: xs => xs.foldl max x

/-- Mutable state of `generate`'s placement loop: the per-string character
rows, the per-string occupied column sets, and `notes_placed`. -/
structure TabState where
  lines : List (List Char)
  occupied : List (Finset ℤ)
  placed : ℕ

/-- `tab_lines[string_idx][pos] = char` plus `occupied[string_idx].add(pos)`
for one character of the fret string, guarded by `pos < tab_length` as in
the source; `none` models an `IndexError`. -/
def writeChar (tabLength stringIdx pos : ℤ) (c : Char)
    (s : List (List Char) × List (Finset ℤ)) :
    Option (List (List Char) × List (Finset ℤ)) :=
  if pos < tabLength then
    match pyGet s.1 stringIdx, pyGet s.2 stringIdx with
    | some row, some occRow =>
        match pySet row pos c with
        | none => none
        | some row2 =>
            match pySet s.1 stringIdx row2,
                  pySet s.2 stringIdx (insert pos occRow) with
            | some lines2, some occ2 => some (lines2, occ2)
            | _, _ => none
    | _, _ => none
  else some s

/-- The `for j, char in enumerate(fret_str)` write loop. -/
def writeChars (tabLength stringIdx position : ℤ) (chars : List Char)
    (s : List (List Char) × List (Finset ℤ)) :
    Option (List (List Char) × List (Finset ℤ)) :=
  chars.enum.foldl
    (fun os jc => os.bind (writeChar tabLength stringIdx (position + jc.1) jc.2))
    (some s)

/-- Placing one valid note in `generate`: compute the column from the note
time, skip notes past the end of the tab, look up the display row
`NUM_STRINGS - 1 - string` (the `IndexError` point for a negative string
index: the row index then exceeds `NUM_STRINGS - 1`), check availability
against the occupied set, shift one column right if occupied, and write the
decimal digits of the fret.  `none` models an `IndexError` escaping. -/
def placeNote (cps : ℝ) (tabLength : ℤ) (st : TabState) (note : NoteD) :
    Option TabState :=
  let position := pyInt (note.time.getD 0 * cps)
  if position ≥ tabLength then some st
  else
    let stringIdx : ℤ := (NUM_STRINGS : ℤ) - 1 - note.string.getD 0
    let fretStr : List Char := (toString (note.fret.getD 0)).data
    match pyGet st.occupied stringIdx with
    | none => none
    | some occRow =>
        let available : Bool :=
          (List.range fretStr.length).all fun off =>
            decide ((position + (off : ℤ)) ∉ occRow)
        if available then
          match writeChars tabLength stringIdx position fretStr
              (st.lines, st.occupied) with
          | none => none
          | some s => some ⟨s.1, s.2, st.placed + 1⟩
        else
          let position2 := position + 1
          if position2 ≥ tabLength then some st
          else
            match writeChars tabLength stringIdx position2 fretStr
                (st.lines, st.occupied) with
            | none => none
            | some s => some ⟨s.1, s.2, st.placed + 1⟩

/-- The data `generate` serializes after placement.  The textual
serialization itself (fixed headers, `str.join`, two-decimal float
formatting) is not modelled: it reads only already-computed values and
cannot raise. -/
inductive TabResult where
  | noNotes : TabResult
  | noValid : TabResult
  | tab (lines : List (List Char)) (placed : ℕ) (total : ℕ)
      (maxTime : ℝ) (avgConfidence : Option ℝ) : TabResult

/-- The validity filter of `generate`:
`string is not None and fret is not None and string < NUM_STRINGS`. -/
def validNote (n : NoteD) : Bool :=
  n.string.isSome && n.fret.isSome && decide (n.string.getD 0 < (NUM_STRINGS : ℤ))

/-- `TabGenerator.generate` (default `chars_per_second = 8`), up to (and not
including) string serialization: the two early "no notes" returns, the
validity filter, the tab-length computation and the placement loop.
`none` models an uncaught `IndexError` from the placement loop. -/
def tab_generate (cps : ℝ) (notes : List NoteD) : Option TabResult :=
  if notes.isEmpty then some .noNotes
  else
    let validNotes := notes.filter validNote
    if validNotes.isEmpty then some .noValid
    else
      let maxTime :=
        pyMaxList (validNotes.map fun n => n.time.getD 0 + n.duration.getD 0.1)
      let tabLength : ℤ := pyInt (maxTime * cps) + 20
      let lines := List.replicate NUM_STRINGS (List.replicate tabLength.toNat '-')
      let occ := List.replicate NUM_STRINGS (∅ : Finset ℤ)
      match validNotes.foldl
          (fun ost n => ost.bind fun st => placeNote cps tabLength st n)
          (some ⟨lines, occ, 0⟩) with
      | none => none
      | some st =>
          let confs := validNotes.filterMap (·.confidence)
          some (.tab st.lines st.placed validNotes.length maxTime
            (if confs.isEmpty then none else some (confs.sum / confs.length)))

end

/-! ## Evaluation helpers -/

/-- The video-implied frequency of string 1 (A2), fret 0 is 110 Hz. -/
lemma calcFreq_string1_fret0 : calculate_frequency_from_position 1 0 = some 110 := by
  simp [calculate_frequency_from_position, tuningAt, STANDARD_TUNING, noteOffsets]
  rw [show ((-24 : ℝ) / 12) = ((-2 : ℤ) : ℝ) by norm_num, Real.rpow_intCast]
  norm_num

lemma logb_two_two : Real.logb 2 2 = 1 :=
  Real.logb_self_eq_one (by norm_num)

lemma logb_two_four : Real.logb 2 4 = 2 := by
  have : (4 : ℝ) = 2 ^ (2 : ℕ) := by norm_num
  rw [this, Real.logb_pow, logb_two_two]; norm_num

/-! ## C5: scoring with no context -/

/-- Claim C5 is false on the code: with an empty context but a raw
confidence field present, the scorers return the confidence multiplied by
the corresponding weight, not the raw confidence unchanged. -/
theorem c5_counterexample :
    score_audio_prediction { confidence := some 1 } emptyCtx = 0.4 ∧
    score_audio_prediction { confidence := some 1 } emptyCtx ≠ 1 ∧
    score_video_prediction { confidence := some 1 } emptyCtx = 0.3 ∧
    score_video_prediction { confidence := some 1 } emptyCtx ≠ 1 := by
  refine ⟨?_, ?_, ?_, ?_⟩ <;>
    simp [score_audio_prediction, score_video_prediction, emptyCtx,
      wPitchConfidence, wHandDetection] <;> norm_num

/-- C5 (amended): with no context supplied, `score_audio_prediction` returns
the raw confidence scaled by the pitch-confidence weight (0.4) and
`score_video_prediction` the raw confidence scaled by the hand-detection
weight (0.3); the raw/default fallback (0.5 resp. 0.6) applies only when
the observation itself has no confidence field. -/
theorem c5_no_context_scaled (note : NoteD) :
    (∀ c : ℝ, note.confidence = some c →
      score_audio_prediction note emptyCtx = c * wPitchConfidence ∧
      score_video_prediction note emptyCtx = c * wHandDetection) ∧
    (note.confidence = none →
      score_audio_prediction note emptyCtx = 0.5 ∧
      score_video_prediction note emptyCtx = 0.6) := by
  constructor
  · intro c hc
    simp [score_audio_prediction, score_video_prediction, emptyCtx, hc]
  · intro hc
    simp [score_audio_prediction, score_video_prediction, emptyCtx, hc]

/-- Witness for C5 (amended) at a concrete observation. -/
theorem c5_no_context_scaled_witness :
    score_audio_prediction { confidence := some 0.9 } emptyCtx =
      0.9 * wPitchConfidence ∧
    score_video_prediction { confidence := some 0.9 } emptyCtx =
      0.9 * wHandDetection ∧
    score_audio_prediction {} emptyCtx = 0.5 := by
  refine ⟨((c5_no_context_scaled _).1 0.9 rfl).1,
    ((c5_no_context_scaled _).1 0.9 rfl).2,
    ((c5_no_context_scaled {}).2 rfl).1⟩

/-! ## C6: the agreement comparison -/

/-- C6: `compare_predictions` returns agreement exactly 1.0 when string and
fret both match, 0.5 when only the string matches, 0.7 when neither matches
but the cents difference is below 100, 0.0 when neither matches and the
cents difference exceeds 100, and reports the sentinel 999 cents whenever
either frequency is non-positive. -/
theorem c6_agreement_cases (a v : NoteD) (comp : Comparison)
    (h : compare_predictions a v = some comp) :
    (comp.string_match = true → comp.fret_match = true → comp.agreement = 1.0) ∧
    (comp.string_match = true → comp.fret_match = false → comp.agreement = 0.5) ∧
    (comp.string_match = false → comp.fret_match = false →
      comp.frequency_diff_cents < 100 → comp.agreement = 0.7) ∧
    (comp.string_match = false → comp.fret_match = false →
      comp.frequency_diff_cents > 100 → comp.agreement = 0.0) ∧
    (comp.audio_freq ≤ 0 ∨ comp.video_freq ≤ 0 →
      comp.frequency_diff_cents = 999) := by
  rcases comp with ⟨sm, fm, cents, agr, af, vfa⟩
  unfold compare_predictions at h
  rcases hcf : calculate_frequency_from_position (v.string.getD 0) (v.fret.getD 0)
    with _ | vf
  · rw [hcf] at h; exact absurd h (by simp)
  · rw [hcf] at h
    simp only [Option.some.injEq, Comparison.mk.injEq] at h
    obtain ⟨hsm, hfm, hcents, hagr, haf, hvf⟩ := h
    subst hsm hfm hcents hagr haf hvf
    refine ⟨?_, ?_, ?_, ?_, ?_⟩
    · intro hs hf; simp only at hs hf ⊢; rw [hs, hf]; simp
    · intro hs hf; simp only at hs hf ⊢; rw [hs, hf]; simp
    · intro hs hf hc
      simp only at hs hf hc ⊢
      rw [hs, hf] at *
      rw [if_neg (by simp), if_neg (by simp), if_pos hc]
    · intro hs hf hc
      simp only at hs hf hc ⊢
      rw [hs, hf] at *
      rw [if_neg (by simp), if_neg (by simp),
        if_neg (not_lt.mpr (le_of_lt hc))]
    · intro hnp
      simp only at hnp ⊢
      rw [if_neg]
      rintro ⟨h1, h2⟩
      rcases hnp with hnp | hnp
      · exact absurd h1 (not_lt.mpr hnp)
      · exact absurd h2 (not_lt.mpr hnp)

/-- A video note at string 1 (A2, 110 Hz), fret 0. -/
def vStd : NoteD := { string := some 1, fret := some 0 }

def aBoth : NoteD := { string := some 1, fret := some 0, frequency := some 110 }
def aStrOnly : NoteD := { string := some 1, fret := some 2, frequency := some 110 }
def aNear : NoteD := { string := some 0, fret := some 5, frequency := some 110 }
def aFar : NoteD := { string := some 0, fret := some 5, frequency := some 220 }
def aSent : NoteD := { string := some 0, fret := some 5 }

lemma compare_eval_aBoth :
    compare_predictions aBoth vStd = some ⟨true, true, 0, 1.0, 110, 110⟩ := by
  unfold compare_predictions
  simp only [aBoth, vStd, Option.getD_some]
  rw [calcFreq_string1_fret0]
  norm_num [Real.logb_one]

lemma compare_eval_aStrOnly :
    compare_predictions aStrOnly vStd = some ⟨true, false, 0, 0.5, 110, 110⟩ := by
  unfold compare_predictions
  simp only [aStrOnly, vStd, Option.getD_some]
  rw [calcFreq_string1_fret0]
  norm_num [Real.logb_one]

lemma compare_eval_aNear :
    compare_predictions aNear vStd = some ⟨false, false, 0, 0.7, 110, 110⟩ := by
  unfold compare_predictions
  simp only [aNear, vStd, Option.getD_some]
  rw [calcFreq_string1_fret0]
  norm_num [Real.logb_one]

lemma compare_eval_aFar :
    compare_predictions aFar vStd = some ⟨false, false, 1200, 0.0, 220, 110⟩ := by
  unfold compare_predictions
  simp only [aFar, vStd, Option.getD_some]
  rw [calcFreq_string1_fret0]
  dsimp only
  rw [show ((220 : ℝ) / 110) = 2 by norm_num]
  norm_num [logb_two_two]

lemma compare_eval_aSent :
    compare_predictions aSent vStd = some ⟨false, false, 999, 0.0, 0, 110⟩ := by
  unfold compare_predictions
  simp only [aSent, vStd, Option.getD_some, Option.getD_none]
  rw [calcFreq_string1_fret0]
  norm_num

/-- Witness for C6: each of the five cases realized at a concrete pair of
observations against the string 1 / fret 0 (110 Hz) video note. -/
theorem c6_agreement_cases_witness :
    (∃ c : Comparison, compare_predictions aBoth vStd = some c ∧ c.agreement = 1.0) ∧
    (∃ c : Comparison, compare_predictions aStrOnly vStd = some c ∧ c.agreement = 0.5) ∧
    (∃ c : Comparison, compare_predictions aNear vStd = some c ∧ c.agreement = 0.7) ∧
    (∃ c : Comparison, compare_predictions aFar vStd = some c ∧ c.agreement = 0.0) ∧
    (∃ c : Comparison, compare_predictions aSent vStd = some c ∧
      c.frequency_diff_cents = 999) := by
  refine ⟨⟨_, compare_eval_aBoth, ?_⟩, ⟨_, compare_eval_aStrOnly, ?_⟩,
    ⟨_, compare_eval_aNear, ?_⟩, ⟨_, compare_eval_aFar, ?_⟩,
    ⟨_, compare_eval_aSent, ?_⟩⟩
  · exact (c6_agreement_cases aBoth vStd _ compare_eval_aBoth).1 rfl rfl
  · exact (c6_agreement_cases aStrOnly vStd _ compare_eval_aStrOnly).2.1 rfl rfl
  · exact (c6_agreement_cases aNear vStd _ compare_eval_aNear).2.2.1 rfl rfl
      (by norm_num)
  · exact (c6_agreement_cases aFar vStd _ compare_eval_aFar).2.2.2.1 rfl rfl
      (by norm_num)
  · exact (c6_agreement_cases aSent vStd _ compare_eval_aSent).2.2.2.2
      (Or.inl (by norm_num))

/-! ## C3: the octave-error branch -/

lemma resolve_octave_error_fields (a v : NoteD) (vc : ℝ) :
    (resolve_octave_error a v vc).string = v.string ∧
    (resolve_octave_error a v vc).fret = v.fret ∧
    (resolve_octave_error a v vc).source = some "octave_corrected" ∧
    (resolve_octave_error a v vc).confidence = some (vc * videoWeight * 1.2) ∧
    (resolve_octave_error a v vc).audio_frequency_raw = a.frequency := by
  unfold resolve_octave_error
  cases a.duration <;> simp

/-- C3: on a matched pair whose string and fret do not both match and whose
cents difference lies strictly between 1100 and 1300, `_fuse_note_pair`
takes the octave-correction branch: the result carries the video note's
string and fret, provenance `octave_corrected`, confidence
`video_conf · video_weight · 1.2`, and the raw audio frequency as an
annotation. -/
theorem c3_octave_branch (a v : NoteD) (ca cv : Ctx) (comp : Comparison)
    (h : compare_predictions a v = some comp)
    (hnm : ¬(comp.string_match = true ∧ comp.fret_match = true))
    (h1 : comp.frequency_diff_cents > 1100)
    (h2 : comp.frequency_diff_cents < 1300) :
    ∃ n, fuse_note_pair a v ca cv = some n ∧
      n.string = v.string ∧ n.fret = v.fret ∧
      n.source = some "octave_corrected" ∧
      n.confidence = some (score_video_prediction v cv * videoWeight * 1.2) ∧
      n.audio_frequency_raw = a.frequency := by
  have hr := resolve_octave_error_fields a v (score_video_prediction v cv)
  refine ⟨resolve_octave_error a v (score_video_prediction v cv), ?_,
    hr.1, hr.2.1, hr.2.2.1, hr.2.2.2.1, hr.2.2.2.2⟩
  unfold fuse_note_pair
  rw [h]
  dsimp only
  rw [if_neg hnm, if_pos ⟨h1, h2⟩]

/-- The concrete C3 scenario: audio 220 Hz at t = 2.00, video string 1 /
fret 0 (110 Hz) at t = 2.02: the cents difference is exactly 1200. -/
def a3 : NoteD := { time := some 2, frequency := some 220 }

def v3 : NoteD := { time := some 2.02, string := some 1, fret := some 0 }

lemma compare_eval_c3 :
    compare_predictions a3 v3 = some ⟨false, false, 1200, 0.0, 220, 110⟩ := by
  unfold compare_predictions
  simp only [a3, v3, Option.getD_some]
  rw [calcFreq_string1_fret0]
  dsimp only
  rw [show ((220 : ℝ) / 110) = 2 by norm_num]
  norm_num [logb_two_two]
  simp

/-- Witness for C3 at the spec's concrete scenario: the fused note takes the
video position (string 1, fret 0), provenance `octave_corrected`, and is
annotated with the raw audio frequency 220. -/
theorem c3_octave_branch_witness :
    ∃ n, fuse_note_pair a3 v3 emptyCtx emptyCtx = some n ∧
      n.string = some 1 ∧ n.fret = some 0 ∧
      n.source = some "octave_corrected" ∧
      n.audio_frequency_raw = some 220 := by
  obtain ⟨n, hn, hs, hf, hsrc, _, hraw⟩ :=
    c3_octave_branch a3 v3 emptyCtx emptyCtx _ compare_eval_c3
      (by simp) (by norm_num) (by norm_num)
  exact ⟨n, hn, by rw [hs]; rfl, by rw [hf]; rfl, hsrc, by rw [hraw]; rfl⟩

/-! ## C10: division by zero in the weighted-fusion branch -/

/-- A matched pair landing in the weighted-fusion branch with both scored
confidences zero: the audio note is two octaves above the video-implied
pitch (2400 cents: no branch before the disagreement case fires) and both
notes carry raw confidence 0 with empty contexts. -/
def a10 : NoteD := { time := some 0, frequency := some 440, confidence := some 0 }

def v10 : NoteD :=
  { time := some 0, string := some 1, fret := some 0, confidence := some 0 }

lemma compare_eval_c10 :
    compare_predictions a10 v10 = some ⟨false, false, 2400, 0.0, 440, 110⟩ := by
  unfold compare_predictions
  simp only [a10, v10, Option.getD_some]
  rw [calcFreq_string1_fret0]
  dsimp only
  rw [show ((440 : ℝ) / 110) = 4 by norm_num]
  norm_num [logb_two_four]
  simp

lemma score_audio_a10 : score_audio_prediction a10 emptyCtx = 0 := by
  simp [score_audio_prediction, a10, emptyCtx]

lemma score_video_v10 : score_video_prediction v10 emptyCtx = 0 := by
  simp [score_video_prediction, v10, emptyCtx]

lemma fuse_pair_c10 : fuse_note_pair a10 v10 emptyCtx emptyCtx = none := by
  unfold fuse_note_pair
  rw [compare_eval_c10]
  dsimp only
  rw [score_audio_a10, score_video_v10]
  rw [if_neg (by simp), if_neg (by norm_num), if_neg (by norm_num),
    if_pos (by norm_num)]
  rw [if_neg (by norm_num), if_neg (by norm_num)]
  unfold weighted_fusion
  rw [if_pos (by norm_num [audioWeight, videoWeight])]

lemma pairs_c10 : (match_notes_by_time [a10] [v10]).1 = [(a10, v10)] := by
  unfold match_notes_by_time matchNotesLoop findBestAudioLoop
  simp only [List.enum]
  dsimp only [List.enumFrom]
  rw [if_neg (by simp)]
  rw [if_pos ?_]
  · rfl
  · constructor
    · simp [audioTime, videoTime, a10, v10, timeTolerance]
      norm_num
    · intro b hb
      simp at hb

/-- C10: `fuse_predictions` is undefined (ZeroDivisionError in
`_weighted_fusion`) on a concrete matched, disagreeing pair whose two scored
confidences are both zero; whenever the combined weighted confidence is
non-zero, `_weighted_fusion` does return a note. -/
theorem c10_weighted_fusion_div_by_zero :
    fuse_predictions [a10] [v10] emptyCtx emptyCtx = none ∧
    (∀ (an vn : NoteD) (ac vc : ℝ), ac * audioWeight + vc * videoWeight ≠ 0 →
      (weighted_fusion an vn ac vc).isSome = true) := by
  constructor
  · unfold fuse_predictions
    dsimp only
    rw [pairs_c10]
    unfold fusePairsAll
    rw [fuse_pair_c10]
  · intro an vn ac vc h
    unfold weighted_fusion
    rw [if_neg h]
    simp only [Option.isSome_some]

/-- Witness for the hypothesis-bearing half of C10: with both confidences 1
the combined weight is 1 and `_weighted_fusion` produces a note. -/
theorem c10_weighted_fusion_div_by_zero_witness :
    (weighted_fusion {} {} 1 1).isSome = true :=
  c10_weighted_fusion_div_by_zero.2 {} {} 1 1
    (by norm_num [audioWeight, videoWeight])

/-! ## C1: the position resolver never exceeds the pitch tolerance -/

lemma score_finite_tolerance (lp : Option (ℕ × ℕ)) (cell : CellInfo) (tf : ℝ)
    (h : calculate_position_score lp cell tf ≠ ⊤) :
    |1200 * Real.logb 2 (tf / cell.frequency)| ≤ PITCH_TOLERANCE := by
  simp only [calculate_position_score] at h
  split_ifs at h with h1 h2 h3
  · exact absurd rfl h
  · exact absurd rfl h
  · exact not_lt.mp h2
  · exact not_lt.mp h2

lemma stepCell_preserves (lp : Option (ℕ × ℕ)) (f tf : ℝ)
    (hcand : tf = f ∨ tf = f / 2 ∨ tf = f * 2) (h80 : 80 ≤ tf) (h1200 : tf ≤ 1200)
    (st : Option BestMatch × WithTop ℝ) (cell : CellInfo)
    (hP : ∀ bm, st.1 = some bm → ∃ c, (c = f ∨ c = f / 2 ∨ c = f * 2) ∧
      80 ≤ c ∧ c ≤ 1200 ∧ |1200 * Real.logb 2 (c / bm.frequency)| ≤ PITCH_TOLERANCE) :
    ∀ bm, (stepCell lp f tf st cell).1 = some bm → ∃ c, (c = f ∨ c = f / 2 ∨ c = f * 2) ∧
      80 ≤ c ∧ c ≤ 1200 ∧ |1200 * Real.logb 2 (c / bm.frequency)| ≤ PITCH_TOLERANCE := by
  intro bm hbm
  simp only [stepCell] at hbm
  split_ifs at hbm with hlt
  · simp only [Option.some.injEq] at hbm
    subst hbm
    refine ⟨tf, hcand, h80, h1200, ?_⟩
    exact score_finite_tolerance lp cell tf (hlt.trans_le le_top).ne
  · exact hP bm hbm

lemma foldCells_preserves (lp : Option (ℕ × ℕ)) (f tf : ℝ)
    (hcand : tf = f ∨ tf = f / 2 ∨ tf = f * 2) (h80 : 80 ≤ tf) (h1200 : tf ≤ 1200) :
    ∀ (cells : List CellInfo) (st : Option BestMatch × WithTop ℝ),
    (∀ bm, st.1 = some bm → ∃ c, (c = f ∨ c = f / 2 ∨ c = f * 2) ∧
      80 ≤ c ∧ c ≤ 1200 ∧ |1200 * Real.logb 2 (c / bm.frequency)| ≤ PITCH_TOLERANCE) →
    ∀ bm, (cells.foldl (stepCell lp f tf) st).1 = some bm →
      ∃ c, (c = f ∨ c = f / 2 ∨ c = f * 2) ∧
        80 ≤ c ∧ c ≤ 1200 ∧ |1200 * Real.logb 2 (c / bm.frequency)| ≤ PITCH_TOLERANCE := by
  intro cells
  induction cells with
  | nil => intro st hP; exact hP
  | cons cell rest ih =>
      intro st hP
      exact ih (stepCell lp f tf st cell)
        (stepCell_preserves lp f tf hcand h80 h1200 st cell hP)

lemma foldCands_preserves (lp : Option (ℕ × ℕ)) (f : ℝ) :
    ∀ (cands : List ℝ) (st : Option BestMatch × WithTop ℝ),
    (∀ c ∈ cands, c = f ∨ c = f / 2 ∨ c = f * 2) →
    (∀ bm, st.1 = some bm → ∃ c, (c = f ∨ c = f / 2 ∨ c = f * 2) ∧
      80 ≤ c ∧ c ≤ 1200 ∧ |1200 * Real.logb 2 (c / bm.frequency)| ≤ PITCH_TOLERANCE) →
    ∀ bm, (cands.foldl
        (fun st testFreq =>
          if testFreq < 80 ∨ testFreq > 1200 then st
          else fretboardCells.foldl (stepCell lp f testFreq) st) st).1 = some bm →
      ∃ c, (c = f ∨ c = f / 2 ∨ c = f * 2) ∧
        80 ≤ c ∧ c ≤ 1200 ∧ |1200 * Real.logb 2 (c / bm.frequency)| ≤ PITCH_TOLERANCE := by
  intro cands
  induction cands with
  | nil => intro st _ hP; exact hP
  | cons tf rest ih =>
      intro st hmem hP
      simp only [List.foldl_cons]
      by_cases hrange : tf < 80 ∨ tf > 1200
      · rw [if_pos hrange]
        exact ih st (fun c hc => hmem c (List.mem_cons_of_mem _ hc)) hP
      · rw [if_neg hrange]
        push_neg at hrange
        exact ih _ (fun c hc => hmem c (List.mem_cons_of_mem _ hc))
          (foldCells_preserves lp f tf (hmem tf (List.mem_cons_self _ _))
            hrange.1 hrange.2 fretboardCells st hP)

/-- C1: for every input frequency (and any resolver state), the position
resolver either fails or returns a cell whose table frequency is within the
50-cent pitch tolerance of at least one in-range octave candidate
`f`, `f/2`, `f·2`; it never returns a cell all of whose candidates exceed
the tolerance. -/
theorem c1_resolver_within_tolerance (lp : Option (ℕ × ℕ)) (f : ℝ) :
    find_best_position lp f = none ∨
    ∃ bm, find_best_position lp f = some bm ∧
      ∃ c, (c = f ∨ c = f / 2 ∨ c = f * 2) ∧ 80 ≤ c ∧ c ≤ 1200 ∧
        |1200 * Real.logb 2 (c / bm.frequency)| ≤ PITCH_TOLERANCE := by
  rcases hr : find_best_position lp f with _ | bm
  · exact Or.inl rfl
  · refine Or.inr ⟨bm, rfl, ?_⟩
    unfold find_best_position at hr
    refine foldCands_preserves lp f [f, f / 2, f * 2] (none, ⊤) ?_ ?_ bm hr
    · intro c hc
      simpa using hc
    · intro bm h
      exact absurd h (by simp)

/-! ## C8: chord grouping -/

def n81 : NoteD := { time := some 1, fret := some 1 }
def n82 : NoteD := { time := some 1.02, fret := some 2 }
def n83 : NoteD := { time := some 1.04, fret := some 3 }
def n84 : NoteD := { time := some 1.10, fret := some 4 }

lemma sort_c8 : sortByTime [n81, n82, n83, n84] = [n81, n82, n83, n84] := by
  unfold sortByTime
  apply List.Sorted.insertionSort_eq
  simp [List.sorted_cons, n81, n82, n83, n84]
  norm_num

lemma finalizeGroup_good (w ctime : ℝ) (group : List NoteD)
    (hinv : ∃ h t, group = h :: t ∧ h.time.getD 0 = ctime ∧
      ∀ m ∈ group, |m.time.getD 0 - ctime| < w) :
    (let e := finalizeGroup group ctime
     (e.etype = "chord" ∧ e.num_notes = some e.notes.length ∧
        1 < e.notes.length ∧ (∃ h t, e.notes = h :: t ∧ h.time.getD 0 = e.time) ∧
        ∀ m ∈ e.notes, |m.time.getD 0 - e.time| < w) ∨
      (e.etype = "note" ∧ e.note.isSome ∧ e.notes = [])) := by
  obtain ⟨h, t, hg, hh, hmem⟩ := hinv
  unfold finalizeGroup
  split_ifs with hlen
  · exact Or.inl ⟨rfl, rfl, hlen, ⟨h, t, hg, hh⟩, hmem⟩
  · refine Or.inr ⟨rfl, ?_, rfl⟩
    subst hg
    simp

lemma chordLoop_good (w : ℝ) (hw : 0 < w) :
    ∀ (rest group : List NoteD) (ctime : ℝ),
    (∃ h t, group = h :: t ∧ h.time.getD 0 = ctime ∧
      ∀ m ∈ group, |m.time.getD 0 - ctime| < w) →
    ∀ e ∈ chordLoop w rest group ctime,
      (e.etype = "chord" ∧ e.num_notes = some e.notes.length ∧
        1 < e.notes.length ∧ (∃ h t, e.notes = h :: t ∧ h.time.getD 0 = e.time) ∧
        ∀ m ∈ e.notes, |m.time.getD 0 - e.time| < w) ∨
      (e.etype = "note" ∧ e.note.isSome ∧ e.notes = []) := by
  intro rest
  induction rest with
  | nil =>
      intro group ctime hinv e he
      simp only [chordLoop, List.mem_singleton] at he
      subst he
      exact finalizeGroup_good w ctime group hinv
  | cons n rest ih =>
      intro group ctime hinv e he
      rw [chordLoop] at he
      by_cases hcond : |n.time.getD 0 - ctime| < w
      · rw [if_pos hcond] at he
        refine ih (group ++ [n]) ctime ?_ e he
        obtain ⟨h, t, hg, hh, hmem⟩ := hinv
        refine ⟨h, t ++ [n], by rw [hg]; rfl, hh, ?_⟩
        intro m hm
        rcases List.mem_append.mp hm with hm1 | hm2
        · exact hmem m hm1
        · rw [List.mem_singleton.mp hm2]
          exact hcond
      · rw [if_neg hcond] at he
        rcases List.mem_cons.mp he with rfl | he2
        · exact finalizeGroup_good w ctime group hinv
        · refine ih [n] (n.time.getD 0) ?_ e he2
          refine ⟨n, [], rfl, rfl, ?_⟩
          intro m hm
          rw [List.mem_singleton.mp hm]
          simpa using hw

/-- The chord event expected in the concrete C8 scenario. -/
def c8Chord : GEvent :=
  { etype := "chord", notes := [n81, n82, n83], time := 1, num_notes := some 3 }

/-- The trailing single-note event expected in the concrete C8 scenario. -/
def c8Single : GEvent := { etype := "note", note := some n84, time := 1.10 }

/-- C8: chord grouping accumulates notes while each new note is within the
window of the group anchor (the first note's time), emits chord events for
groups of more than one member (single-note events otherwise) and flushes
the final group; the concrete four-note scenario (times 1.00, 1.02, 1.04,
1.10, window 0.05) yields one chord event with anchor 1.00 and 3 members
followed by a single-note event at 1.10. -/
theorem c8_chord_grouping :
    group_into_chords [n81, n82, n83, n84] 0.05 = [c8Chord, c8Single] ∧
    (∀ (notes : List NoteD) (w : ℝ), 0 < w → ∀ e ∈ group_into_chords notes w,
      (e.etype = "chord" ∧ e.num_notes = some e.notes.length ∧
        1 < e.notes.length ∧ (∃ h t, e.notes = h :: t ∧ h.time.getD 0 = e.time) ∧
        ∀ m ∈ e.notes, |m.time.getD 0 - e.time| < w) ∨
      (e.etype = "note" ∧ e.note.isSome ∧ e.notes = [])) := by
  constructor
  · unfold group_into_chords
    rw [sort_c8]
    dsimp only
    norm_num [chordLoop, finalizeGroup, c8Chord, c8Single, n81, n82, n83, n84, abs_lt]
  · intro notes w hw e he
    unfold group_into_chords at he
    rcases hs : sortByTime notes with _ | ⟨s, rest⟩
    · rw [hs] at he
      exact absurd he (by simp)
    · rw [hs] at he
      refine chordLoop_good w hw rest [s] (s.time.getD 0)
        ⟨s, [], rfl, rfl, ?_⟩ e he
      intro m hm
      rw [List.mem_singleton.mp hm]
      simpa using hw

/-- Witness for the invariant half of C8: the chord event of the concrete
scenario satisfies the chord-event shape. -/
theorem c8_chord_grouping_witness :
    ∃ e, e ∈ group_into_chords [n81, n82, n83, n84] 0.05 ∧
      e.etype = "chord" ∧ e.num_notes = some e.notes.length ∧
      1 < e.notes.length ∧
      ∀ m ∈ e.notes, |m.time.getD 0 - e.time| < 0.05 := by
  refine ⟨c8Chord, ?_, ?_⟩
  · rw [c8_chord_grouping.1]
    exact List.mem_cons_self _ _
  · have h2 := c8_chord_grouping.2 [n81, n82, n83, n84] 0.05 (by norm_num)
      c8Chord (by rw [c8_chord_grouping.1]; exact List.mem_cons_self _ _)
    rcases h2 with h | h
    · exact ⟨h.1, h.2.1, h.2.2.1, h.2.2.2.2⟩
    · exact absurd h.1 (by simp [c8Chord])

/-! ## C9: tab rendering and invalid notes -/

/-- A note with a negative string index: passes the render filter (the
filter only checks `string < NUM_STRINGS`) and drives the display-row index
to `NUM_STRINGS - 1 - (-1) = 6`, out of range. -/
def badNote : NoteD := { time := some 0, string := some (-1), fret := some 0 }

def goodNote : NoteD :=
  { time := some 0, string := some 0, fret := some 3, duration := some 0.5 }

lemma pyInt_eval_0 : pyInt (0 * 8) = 0 := by
  unfold pyInt
  rw [if_pos (by norm_num)]
  norm_num

lemma pyInt_eval_01 : pyInt ((0 + 0.1) * 8) = 0 := by
  unfold pyInt
  rw [if_pos (by norm_num)]
  norm_num

lemma pyInt_eval_05 : pyInt ((0 + 0.5) * 8) = 4 := by
  unfold pyInt
  rw [if_pos (by norm_num)]
  norm_num

lemma validNote_badNote : validNote badNote = true := by
  simp [validNote, badNote, NUM_STRINGS]

lemma validNote_goodNote : validNote goodNote = true := by
  simp [validNote, goodNote, NUM_STRINGS]

lemma pyGet_occ6_oob : pyGet (List.replicate 6 (∅ : Finset ℤ)) (6 : ℤ) = none := by
  norm_num [pyGet, pyIndex]

lemma placeNote_badNote :
    placeNote 8 20 ⟨List.replicate 6 (List.replicate 20 '-'),
      List.replicate 6 (∅ : Finset ℤ), 0⟩ badNote = none := by
  simp only [placeNote]
  rw [show badNote.time.getD 0 * (8 : ℝ) = 0 * 8 from rfl, pyInt_eval_0]
  rw [if_neg (show ¬((0 : ℤ) ≥ 20) by norm_num)]
  rw [show ((NUM_STRINGS : ℤ) - 1 - badNote.string.getD 0) = 6 from by
    simp [NUM_STRINGS, badNote]]
  rw [pyGet_occ6_oob]

lemma c9_bad_eval : tab_generate 8 [badNote] = none := by
  simp only [tab_generate, NUM_STRINGS, List.isEmpty_cons, Bool.false_eq_true,
    if_false]
  rw [show List.filter validNote [badNote] = [badNote] from by
    simp [validNote_badNote]]
  simp only [List.isEmpty_cons, Bool.false_eq_true, if_false]
  rw [show pyMaxList (List.map (fun n => n.time.getD 0 + n.duration.getD 0.1)
      [badNote]) = ((0 : ℝ) + 0.1) from by simp [pyMaxList, badNote]]
  rw [pyInt_eval_01]
  rw [show ((0 : ℤ) + 20) = 20 from by norm_num]
  rw [show ((20 : ℤ)).toNat = 20 from rfl]
  simp only [List.foldl_cons, List.foldl_nil, Option.some_bind]
  rw [placeNote_badNote]

lemma writeChars_goodNote :
    writeChars 24 5 0 ['3']
      (List.replicate 6 (List.replicate 24 '-'), List.replicate 6 (∅ : Finset ℤ)) =
    some (List.set (List.replicate 6 (List.replicate 24 '-')) 5
        (List.set (List.replicate 24 '-') 0 '3'),
      List.set (List.replicate 6 (∅ : Finset ℤ)) 5
        (insert ((0 : ℤ) + ((0 : ℕ) : ℤ)) ∅)) := by
  simp only [writeChars, List.enum, List.enumFrom, List.foldl_cons,
    List.foldl_nil, Option.some_bind, writeChar]
  rw [if_pos (show ((0 : ℤ) + ((0 : ℕ) : ℤ)) < 24 by norm_num)]
  rw [show pyGet (List.replicate 6 (List.replicate 24 '-')) (5 : ℤ) =
      some (List.replicate 24 '-') from by norm_num [pyGet, pyIndex]]
  rw [show pyGet (List.replicate 6 (∅ : Finset ℤ)) (5 : ℤ) = some ∅ from by
    norm_num [pyGet, pyIndex]]
  dsimp only
  rw [show pySet (List.replicate 24 '-') ((0 : ℤ) + ((0 : ℕ) : ℤ)) '3' =
      some (List.set (List.replicate 24 '-') 0 '3') from by
    norm_num [pySet, pyIndex]]
  dsimp only
  rw [show pySet (List.replicate 6 (List.replicate 24 '-')) (5 : ℤ)
      (List.set (List.replicate 24 '-') 0 '3') =
      some (List.set (List.replicate 6 (List.replicate 24 '-')) 5
        (List.set (List.replicate 24 '-') 0 '3')) from by
    norm_num [pySet, pyIndex]; rfl]
  rw [show pySet (List.replicate 6 (∅ : Finset ℤ)) (5 : ℤ)
      (insert ((0 : ℤ) + ((0 : ℕ) : ℤ)) ∅) =
      some (List.set (List.replicate 6 (∅ : Finset ℤ)) 5
        (insert ((0 : ℤ) + ((0 : ℕ) : ℤ)) ∅)) from by
    norm_num [pySet, pyIndex]; rfl]

lemma placeNote_goodNote :
    (placeNote 8 24 ⟨List.replicate 6 (List.replicate 24 '-'),
      List.replicate 6 (∅ : Finset ℤ), 0⟩ goodNote).isSome = true := by
  simp only [placeNote]
  rw [show goodNote.time.getD 0 * (8 : ℝ) = 0 * 8 from rfl, pyInt_eval_0]
  rw [if_neg (show ¬((0 : ℤ) ≥ 24) by norm_num)]
  rw [show ((NUM_STRINGS : ℤ) - 1 - goodNote.string.getD 0) = 5 from by
    simp [NUM_STRINGS, goodNote]]
  rw [show pyGet (List.replicate 6 (∅ : Finset ℤ)) (5 : ℤ) = some ∅ from by
    norm_num [pyGet, pyIndex]]
  dsimp only
  rw [show (toString (goodNote.fret.getD 0)).data = ['3'] from rfl]
  split_ifs with hav h2
  · rw [writeChars_goodNote]; rfl
  · exact absurd (by decide) hav
  · exact absurd (by decide) hav

lemma c9_good_eval : (tab_generate 8 [goodNote]).isSome = true := by
  simp only [tab_generate, NUM_STRINGS, List.isEmpty_cons, Bool.false_eq_true,
    if_false]
  rw [show List.filter validNote [goodNote] = [goodNote] from by
    simp [validNote_goodNote]]
  simp only [List.isEmpty_cons, Bool.false_eq_true, if_false]
  rw [show pyMaxList (List.map (fun n => n.time.getD 0 + n.duration.getD 0.1)
      [goodNote]) = ((0 : ℝ) + 0.5) from by simp [pyMaxList, goodNote]]
  rw [pyInt_eval_05]
  rw [show ((4 : ℤ) + 20) = 24 from by norm_num]
  rw [show ((24 : ℤ)).toNat = 24 from rfl]
  simp only [List.foldl_cons, List.foldl_nil, Option.some_bind]
  rcases hp : placeNote 8 24 ⟨List.replicate 6 (List.replicate 24 '-'),
      List.replicate 6 (∅ : Finset ℤ), 0⟩ goodNote with _ | st
  · exact absurd placeNote_goodNote (by rw [hp]; simp)
  · rfl

/-- C9 is a code bug: the render filter has no lower bound on the string
index, so a note with a negative string index is kept and the per-string
row lookup fails (modelled `none` = `IndexError`), while the claim (and the
spec's error-handling design) requires such notes to be discarded and
rendering never to raise.  Rendering does discard notes lacking a string or
fret (and notes with string index at or above the string count) and
completes on well-formed notes. -/
theorem c9_render_negative_string_bug :
    tab_generate 8 [badNote] = none ∧
    (tab_generate 8 [goodNote]).isSome = true ∧
    tab_generate 8 [{ time := some 0 }] = some TabResult.noValid ∧
    tab_generate 8 [{ time := some 0, string := some 6, fret := some 0 }] =
      some TabResult.noValid := by
  refine ⟨c9_bad_eval, c9_good_eval, ?_, ?_⟩
  · simp [tab_generate, validNote]
  · simp [tab_generate, validNote, NUM_STRINGS]

/-! ## Shared structure lemmas about `fuse_predictions` (for C2 and C7) -/

lemma merge_agreeing_notes_fields (a v : NoteD) (x y g : ℝ) :
    (merge_agreeing_notes a v x y g).source = some "fused" ∧
    (merge_agreeing_notes a v x y g).confidence =
      some ((audioWeight * x + videoWeight * y) * g) ∧
    (merge_agreeing_notes a v x y g).played = none := by
  unfold merge_agreeing_notes
  rcases a.duration with _ | d <;> rcases v.finger with _ | f <;>
    by_cases hs : v.strumming.getD false <;> simp [hs]

lemma resolve_octave_error_more_fields (a v : NoteD) (y : ℝ) :
    (resolve_octave_error a v y).played = v.played := by
  unfold resolve_octave_error
  cases a.duration <;> simp

lemma resolve_position_conflict_fields (a v : NoteD) (x y : ℝ) :
    (resolve_position_conflict a v x y).source = some "position_corrected" ∧
    (resolve_position_conflict a v x y).confidence =
      some (x * audioWeight + y * videoWeight) := by
  unfold resolve_position_conflict
  cases a.duration <;> simp

lemma weighted_fusion_fields (a v : NoteD) (x y : ℝ) (n : NoteD)
    (h : weighted_fusion a v x y = some n) :
    (n.source = some "video_weighted" ∨ n.source = some "audio_weighted") ∧
    n.confidence = some ((x * audioWeight + y * videoWeight) * 0.8) := by
  simp only [weighted_fusion] at h
  split_ifs at h with h0 hv
  all_goals
    first
    | exact Option.noConfusion h
    | (simp only [Option.some.injEq] at h
       subst h
       first
       | exact ⟨Or.inl rfl, rfl⟩
       | exact ⟨Or.inr rfl, rfl⟩)

/-- Case analysis of `_fuse_note_pair`: every returned note has one of the
seven matched provenance tags, with the corresponding confidence. -/
lemma fuse_note_pair_shape (a v : NoteD) (ca cv : Ctx) (n : NoteD)
    (h : fuse_note_pair a v ca cv = some n) :
    ∃ comp, compare_predictions a v = some comp ∧
      ((n.source = some "fused" ∧
        (n.confidence = some ((audioWeight * score_audio_prediction a ca +
          videoWeight * score_video_prediction v cv) * 1.0) ∨
         n.confidence = some ((audioWeight * score_audio_prediction a ca +
          videoWeight * score_video_prediction v cv) * comp.agreement))) ∨
       (n.source = some "octave_corrected" ∧ n.played = v.played ∧
        n.confidence = some (score_video_prediction v cv * videoWeight * 1.2)) ∨
       (n.source = some "position_corrected" ∧
        n.confidence = some (score_audio_prediction a ca * audioWeight +
          score_video_prediction v cv * videoWeight)) ∨
       (n.source = some "video_priority" ∧
        n.confidence = some (score_video_prediction v cv * videoWeight)) ∨
       (n.source = some "audio_priority" ∧
        n.confidence = some (score_audio_prediction a ca * audioWeight)) ∨
       ((n.source = some "video_weighted" ∨ n.source = some "audio_weighted") ∧
        n.confidence = some ((score_audio_prediction a ca * audioWeight +
          score_video_prediction v cv * videoWeight) * 0.8))) := by
  unfold fuse_note_pair at h
  rcases hcf : compare_predictions a v with _ | comp
  · rw [hcf] at h; exact absurd h (by simp)
  · rw [hcf] at h
    dsimp only at h
    refine ⟨comp, rfl, ?_⟩
    split_ifs at h <;>
    first
    | exact Or.inr (Or.inr (Or.inr (Or.inr (Or.inr
        (weighted_fusion_fields a v _ _ n h)))))
    | (simp only [Option.some.injEq] at h
       subst h
       first
       | exact Or.inl ⟨(merge_agreeing_notes_fields a v _ _ _).1,
           Or.inl (merge_agreeing_notes_fields a v _ _ _).2.1⟩
       | exact Or.inl ⟨(merge_agreeing_notes_fields a v _ _ _).1,
           Or.inr (merge_agreeing_notes_fields a v _ _ _).2.1⟩
       | exact Or.inr (Or.inl ⟨(resolve_octave_error_fields a v _).2.2.1,
           resolve_octave_error_more_fields a v _,
           (resolve_octave_error_fields a v _).2.2.2.1⟩)
       | exact Or.inr (Or.inr (Or.inl
           ⟨(resolve_position_conflict_fields a v _ _).1,
            (resolve_position_conflict_fields a v _ _).2⟩))
       | exact Or.inr (Or.inr (Or.inr (Or.inl ⟨rfl, rfl⟩)))
       | exact Or.inr (Or.inr (Or.inr (Or.inr (Or.inl ⟨rfl, rfl⟩)))))

lemma fusePairsAll_mem (ca cv : Ctx) :
    ∀ (ps : List (NoteD × NoteD)) (l : List NoteD),
    fusePairsAll ca cv ps = some l → ∀ n ∈ l,
      ∃ p ∈ ps, fuse_note_pair p.1 p.2 ca cv = some n := by
  intro ps
  induction ps with
  | nil =>
      intro l hl n hn
      simp only [fusePairsAll, Option.some.injEq] at hl
      subst hl
      exact absurd hn (by simp)
  | cons p ps ih =>
      intro l hl n hn
      unfold fusePairsAll at hl
      rcases hfp : fuse_note_pair p.1 p.2 ca cv with _ | m
      · rw [hfp] at hl; exact absurd hl (by simp)
      · rw [hfp] at hl
        rcases hrest : fusePairsAll ca cv ps with _ | ms
        · rw [hrest] at hl; exact absurd hl (by simp)
        · rw [hrest] at hl
          simp only [Option.some.injEq] at hl
          subst hl
          rcases List.mem_cons.mp hn with rfl | hn2
          · exact ⟨p, List.mem_cons_self _ _, hfp⟩
          · obtain ⟨q, hq, hfq⟩ := ih ms hrest n hn2
            exact ⟨q, List.mem_cons_of_mem _ hq, hfq⟩

lemma mem_sortByTime {n : NoteD} {l : List NoteD} :
    n ∈ sortByTime l ↔ n ∈ l :=
  (List.perm_insertionSort _ l).mem_iff

lemma findBestAudioLoop_mem :
    ∀ (l : List (ℕ × NoteD)) (used : Finset ℕ) (vt : ℝ)
      (best : Option (ℕ × NoteD × ℝ)) (b : ℕ × NoteD × ℝ),
    findBestAudioLoop l used vt best = some b →
    (b.1, b.2.1) ∈ l ∨ best = some b := by
  intro l
  induction l with
  | nil =>
      intro used vt best b hb
      exact Or.inr hb
  | cons p rest ih =>
      intro used vt best b hb
      rcases p with ⟨i, a⟩
      simp only [findBestAudioLoop] at hb
      split_ifs at hb with hused hcond
      all_goals
        first
        | exact (ih used vt best b hb).elim
            (fun hm => Or.inl (List.mem_cons_of_mem _ hm)) Or.inr
        | exact (ih used vt (some (i, a, |audioTime a - vt|)) b hb).elim
            (fun hm => Or.inl (List.mem_cons_of_mem _ hm))
            (fun hbest => by
              cases Option.some.inj hbest
              exact Or.inl (List.mem_cons_self _ _))

lemma matchNotesLoop_mem :
    ∀ (vl : List (ℕ × NoteD)) (audio : List NoteD) (used : Finset ℕ)
      (p : NoteD × NoteD), p ∈ (matchNotesLoop audio used vl).1 →
      p.1 ∈ audio ∧ p.2 ∈ vl.map Prod.snd := by
  intro vl
  induction vl with
  | nil =>
      intro audio used p hp
      exact absurd hp (by simp [matchNotesLoop])
  | cons q rest ih =>
      intro audio used p hp
      rcases q with ⟨vi, v⟩
      unfold matchNotesLoop at hp
      rcases hfb : findBestAudioLoop audio.enum used (videoTime v) none
        with _ | b
      · rw [hfb] at hp
        obtain ⟨h1, h2⟩ := ih audio used p hp
        exact ⟨h1, by simpa using Or.inr (by simpa using h2)⟩
      · rw [hfb] at hp
        dsimp only at hp
        rcases List.mem_cons.mp hp with rfl | hp2
        · rcases findBestAudioLoop_mem audio.enum used (videoTime v) none b hfb
            with hm | hbest
          · refine ⟨?_, by simp⟩
            have := List.mem_enum_iff_get?.mp hm
            exact List.get?_mem this
          · exact absurd hbest (by simp)
        · obtain ⟨h1, h2⟩ := ih audio (insert b.1 used) p hp2
          exact ⟨h1, by simpa using Or.inr (by simpa using h2)⟩

lemma match_pairs_mem (audio video : List NoteD) (p : NoteD × NoteD)
    (hp : p ∈ (match_notes_by_time audio video).1) :
    p.1 ∈ audio ∧ p.2 ∈ video := by
  unfold match_notes_by_time at hp
  obtain ⟨h1, h2⟩ := matchNotesLoop_mem video.enum audio ∅ p hp
  rw [List.enum_map_snd] at h2
  exact ⟨h1, h2⟩

lemma unmatched_audio_mem (audio video : List NoteD) (n : NoteD)
    (hn : n ∈ (match_notes_by_time audio video).2.1) : n ∈ audio := by
  unfold match_notes_by_time at hn
  dsimp only at hn
  obtain ⟨q, hq, hqn⟩ := List.mem_map.mp hn
  have := List.mem_of_mem_filter hq
  rw [← List.enum_map_snd audio]
  exact hqn ▸ List.mem_map_of_mem Prod.snd this

lemma unmatched_video_mem (audio video : List NoteD) (n : NoteD)
    (hn : n ∈ (match_notes_by_time audio video).2.2) : n ∈ video := by
  unfold match_notes_by_time at hn
  dsimp only at hn
  obtain ⟨q, hq, hqn⟩ := List.mem_map.mp hn
  have := List.mem_of_mem_filter hq
  rw [← List.enum_map_snd video]
  exact hqn ▸ List.mem_map_of_mem Prod.snd this

/-! ## C2: a video-only note requires the played flag -/

/-- C2: no video-only note with `played` unset ever appears in the output of
`fuse_predictions`: every output note tagged `video_only` stems from an
unmatched video note whose scored confidence exceeded 0.4 and whose
`played` flag was set. -/
theorem c2_video_only_requires_played
    (audio video : List NoteD) (ca cv : Ctx) (out : List NoteD) (n : NoteD)
    (hf : fuse_predictions audio video ca cv = some out) (hn : n ∈ out)
    (hsrc : n.source = some "video_only") :
    n.played = some true ∧
      ∃ v ∈ video, score_video_prediction v cv > 0.4 ∧
        v.played.getD false = true ∧
        n = { v with
              source := some "video_only",
              confidence := some (score_video_prediction v cv * videoWeight) }
    := by
  simp only [fuse_predictions] at hf
  rcases hfp : fusePairsAll ca cv (match_notes_by_time audio video).1
    with _ | matched
  · rw [hfp] at hf; exact Option.noConfusion hf
  · rw [hfp] at hf
    simp only [Option.some.injEq] at hf
    subst hf
    have hn2 := mem_sortByTime.mp hn
    rcases List.mem_append.mp hn2 with h12 | h3
    · rcases List.mem_append.mp h12 with h1 | h2
      · obtain ⟨p, _, hfuse⟩ := fusePairsAll_mem ca cv _ matched hfp n h1
        obtain ⟨comp, _, hshape⟩ := fuse_note_pair_shape p.1 p.2 ca cv n hfuse
        rcases hshape with ⟨hs, _⟩ | ⟨hs, _⟩ | ⟨hs, _⟩ | ⟨hs, _⟩ | ⟨hs, _⟩ |
          ⟨hs | hs, _⟩ <;> rw [hs] at hsrc <;> simp at hsrc
      · obtain ⟨a, _, hfa⟩ := List.mem_filterMap.mp h2
        split_ifs at hfa with hgt
        cases Option.some.inj hfa
        simp at hsrc
    · obtain ⟨v, hv, hfv⟩ := List.mem_filterMap.mp h3
      split_ifs at hfv with hcond
      cases Option.some.inj hfv
      have hpl := hcond.2
      have hplayed : v.played = some true := by
        rcases hpv : v.played with _ | b
        · rw [hpv] at hpl; exact absurd hpl (by simp)
        · rw [hpv] at hpl; simp only [Option.getD_some] at hpl; rw [hpl]
      refine ⟨hplayed, v, unmatched_video_mem audio video v hv,
        hcond.1, hcond.2, rfl⟩

/-- An unmatched video note with the played flag set and full video context:
scores `1.0 > 0.4`, so it must appear in the output as `video_only`. -/
def vw : NoteD := { time := some 1, confidence := some 1, played := some true }

def cvw : Ctx :=
  { position_clarity := some 1, picking_detected := some true,
    calibration_quality := some 1 }

lemma score_video_vw : score_video_prediction vw cvw = 1 := by
  simp [score_video_prediction, vw, cvw, wHandDetection, wFingerMapping,
    wPickingDetection, wCalibrationQuality]
  norm_num

lemma fuse_eval_c2 :
    fuse_predictions [] [vw] emptyCtx cvw =
      some [{ vw with
              source := some "video_only",
              confidence := some (score_video_prediction vw cvw * videoWeight) }]
    := by
  simp only [fuse_predictions]
  rw [show match_notes_by_time [] [vw] = ([], [], [vw]) from by
    simp [match_notes_by_time, matchNotesLoop, findBestAudioLoop, List.enum,
      List.enumFrom]]
  dsimp only [fusePairsAll]
  simp only [List.filterMap_nil, List.filterMap_cons, List.filterMap_nil]
  rw [if_pos ?hc]
  case hc =>
    constructor
    · rw [score_video_vw]; norm_num
    · simp [vw]
  simp [sortByTime, List.insertionSort]

/-- Witness for C2: on a concrete run with one played, high-confidence
unmatched video note, the single output note is `video_only` and indeed has
`played = some true`. -/
theorem c2_video_only_requires_played_witness :
    ∃ out n, fuse_predictions [] [vw] emptyCtx cvw = some out ∧ n ∈ out ∧
      n.source = some "video_only" ∧ n.played = some true := by
  refine ⟨_, _, fuse_eval_c2, List.mem_cons_self _ _, rfl, ?_⟩
  exact (c2_video_only_requires_played [] [vw] emptyCtx cvw _ _
    fuse_eval_c2 (List.mem_cons_self _ _) rfl).1

/-! ## C7: fused confidences stay in [0, 1] -/

lemma elim_part_bounds {α : Type} (o : Option α) (w : ℝ) (f : α → ℝ)
    (hw : 0 ≤ w) (hb : ∀ z, o = some z → 0 ≤ f z ∧ f z ≤ w) :
    0 ≤ (o.elim ([] : List ℝ) fun z => [f z]).sum ∧
    (o.elim ([] : List ℝ) fun z => [f z]).sum ≤ w := by
  rcases h : o with _ | z
  · simpa using hw
  · obtain ⟨h0, h1⟩ := hb z h
    simpa using ⟨h0, h1⟩

lemma score_audio_bounds (note : NoteD) (ctx : Ctx)
    (hc : ∀ c, note.confidence = some c → 0 ≤ c ∧ c ≤ 1)
    (ho : ∀ o, ctx.onset_strength = some o → 0 ≤ o)
    (hx : ∀ x, ctx.frequency_variance = some x → 0 ≤ x) :
    0 ≤ score_audio_prediction note ctx ∧ score_audio_prediction note ctx ≤ 1 := by
  have p2 := elim_part_bounds ctx.onset_strength 0.3
    (fun o => min 1.0 (o / 10.0) * wOnsetClarity) (by norm_num)
    (fun z hz => by
      have hz0 := ho z hz
      have h1 : min 1.0 (z / 10.0) ≤ 1 := le_trans (min_le_left _ _) (by norm_num)
      have h0 : (0 : ℝ) ≤ min 1.0 (z / 10.0) :=
        le_min (by norm_num) (by positivity)
      unfold wOnsetClarity
      constructor <;> nlinarith)
  have p3 := elim_part_bounds ctx.frequency_variance 0.3
    (fun x => (1.0 / (1.0 + x / 10.0)) * wFrequencyStability) (by norm_num)
    (fun z hz => by
      have hz0 := hx z hz
      have hpos : (0 : ℝ) < 1.0 + z / 10.0 := by positivity
      have h1 : 1.0 / (1.0 + z / 10.0) ≤ 1 := by
        rw [div_le_one hpos]; nlinarith
      have h0 : (0 : ℝ) ≤ 1.0 / (1.0 + z / 10.0) := by positivity
      unfold wFrequencyStability
      constructor <;> nlinarith)
  rcases hcc : note.confidence with _ | c
  · simp only [score_audio_prediction, hcc, Option.elim_none, Option.getD_none,
      List.nil_append]
    constructor <;> split
    · norm_num
    · rw [List.sum_append]; nlinarith [p2.1, p2.2, p3.1, p3.2]
    · norm_num
    · rw [List.sum_append]; nlinarith [p2.1, p2.2, p3.1, p3.2]
  · obtain ⟨hc0, hc1⟩ := hc c hcc
    simp only [score_audio_prediction, hcc, Option.elim_some, List.cons_append,
      List.nil_append, List.isEmpty_cons, Bool.false_eq_true, if_false,
      List.sum_cons, List.sum_append]
    unfold wPitchConfidence
    constructor <;> nlinarith [p2.1, p2.2, p3.1, p3.2]

lemma score_video_bounds (note : NoteD) (ctx : Ctx)
    (hc : ∀ c, note.confidence = some c → 0 ≤ c ∧ c ≤ 1)
    (hm : ∀ m, ctx.position_clarity = some m → 0 ≤ m ∧ m ≤ 1)
    (hq : ∀ q, ctx.calibration_quality = some q → 0 ≤ q ∧ q ≤ 1) :
    0 ≤ score_video_prediction note ctx ∧ score_video_prediction note ctx ≤ 1 := by
  have p2 := elim_part_bounds ctx.position_clarity 0.3
    (fun m => m * wFingerMapping) (by norm_num)
    (fun z hz => by
      obtain ⟨h0, h1⟩ := hm z hz
      unfold wFingerMapping
      constructor <;> nlinarith)
  have p3 := elim_part_bounds ctx.picking_detected 0.2
    (fun p => (if p then (1.0 : ℝ) else 0.3) * wPickingDetection) (by norm_num)
    (fun z _ => by
      unfold wPickingDetection
      rcases z <;> norm_num)
  have p4 := elim_part_bounds ctx.calibration_quality 0.2
    (fun q => q * wCalibrationQuality) (by norm_num)
    (fun z hz => by
      obtain ⟨h0, h1⟩ := hq z hz
      unfold wCalibrationQuality
      constructor <;> nlinarith)
  rcases hcc : note.confidence with _ | c
  · simp only [score_video_prediction, hcc, Option.elim_none, Option.getD_none,
      List.nil_append]
    constructor <;> split
    · norm_num
    · rw [List.sum_append, List.sum_append]
      nlinarith [p2.1, p2.2, p3.1, p3.2, p4.1, p4.2]
    · norm_num
    · rw [List.sum_append, List.sum_append]
      nlinarith [p2.1, p2.2, p3.1, p3.2, p4.1, p4.2]
  · obtain ⟨hc0, hc1⟩ := hc c hcc
    simp only [score_video_prediction, hcc, Option.elim_some, List.cons_append,
      List.nil_append, List.isEmpty_cons, Bool.false_eq_true, if_false,
      List.sum_cons, List.sum_append]
    unfold wHandDetection
    constructor <;> nlinarith [p2.1, p2.2, p3.1, p3.2, p4.1, p4.2]

lemma agreement_bounds (a v : NoteD) (comp : Comparison)
    (h : compare_predictions a v = some comp) :
    0 ≤ comp.agreement ∧ comp.agreement ≤ 1 := by
  rcases comp with ⟨sm, fm, cents, agr, af, vfa⟩
  unfold compare_predictions at h
  rcases hcf : calculate_frequency_from_position (v.string.getD 0) (v.fret.getD 0)
    with _ | vf
  · rw [hcf] at h; exact Option.noConfusion h
  · rw [hcf] at h
    simp only [Option.some.injEq, Comparison.mk.injEq] at h
    obtain ⟨_, _, _, hagr, _, _⟩ := h
    subst hagr
    dsimp only
    split_ifs <;> norm_num

/-- C7: whenever all input confidences lie in [0,1], the onset strength and
frequency variance are non-negative, and position clarity and calibration
quality lie in [0,1], every note returned by `fuse_predictions` carries a
confidence in [0,1] — including the octave-corrected branch with its 1.2
boost and the weighted branches. -/
theorem c7_confidence_in_unit_interval
    (audio video : List NoteD) (ca cv : Ctx) (out : List NoteD) (n : NoteD)
    (Ha : ∀ m ∈ audio, ∀ c : ℝ, m.confidence = some c → 0 ≤ c ∧ c ≤ 1)
    (Hv : ∀ m ∈ video, ∀ c : ℝ, m.confidence = some c → 0 ≤ c ∧ c ≤ 1)
    (Hao : ∀ o : ℝ, ca.onset_strength = some o → 0 ≤ o)
    (Hax : ∀ x : ℝ, ca.frequency_variance = some x → 0 ≤ x)
    (Hvm : ∀ m : ℝ, cv.position_clarity = some m → 0 ≤ m ∧ m ≤ 1)
    (Hvq : ∀ q : ℝ, cv.calibration_quality = some q → 0 ≤ q ∧ q ≤ 1)
    (hf : fuse_predictions audio video ca cv = some out) (hn : n ∈ out) :
    ∃ c, n.confidence = some c ∧ 0 ≤ c ∧ c ≤ 1 := by
  have hw1 : audioWeight = 0.4 := rfl
  have hw2 : videoWeight = 0.6 := rfl
  simp only [fuse_predictions] at hf
  rcases hfp : fusePairsAll ca cv (match_notes_by_time audio video).1
    with _ | matched
  · rw [hfp] at hf; exact Option.noConfusion hf
  · rw [hfp] at hf
    simp only [Option.some.injEq] at hf
    subst hf
    have hn2 := mem_sortByTime.mp hn
    rcases List.mem_append.mp hn2 with h12 | h3
    · rcases List.mem_append.mp h12 with h1 | h2
      · obtain ⟨p, hp, hfuse⟩ := fusePairsAll_mem ca cv _ matched hfp n h1
        obtain ⟨hpa, hpv⟩ := match_pairs_mem audio video p hp
        have ha := score_audio_bounds p.1 ca (Ha p.1 hpa) Hao Hax
        have hb := score_video_bounds p.2 cv (Hv p.2 hpv) Hvm Hvq
        obtain ⟨comp, hcomp, hshape⟩ := fuse_note_pair_shape p.1 p.2 ca cv n hfuse
        have hag := agreement_bounds p.1 p.2 comp hcomp
        have hu : 0 ≤ audioWeight * score_audio_prediction p.1 ca +
            videoWeight * score_video_prediction p.2 cv ∧
            audioWeight * score_audio_prediction p.1 ca +
            videoWeight * score_video_prediction p.2 cv ≤ 1 := by
          constructor <;> nlinarith [ha.1, ha.2, hb.1, hb.2, hw1, hw2]
        rcases hshape with ⟨_, hconf | hconf⟩ | ⟨_, _, hconf⟩ | ⟨_, hconf⟩ |
          ⟨_, hconf⟩ | ⟨_, hconf⟩ | ⟨_, hconf⟩
        · exact ⟨_, hconf, by constructor <;> nlinarith [hu.1, hu.2]⟩
        · exact ⟨_, hconf, by constructor <;>
            nlinarith [hu.1, hu.2, hag.1, hag.2]⟩
        · exact ⟨_, hconf, by constructor <;> nlinarith [hb.1, hb.2, hw2]⟩
        · exact ⟨_, hconf, by constructor <;>
            nlinarith [ha.1, ha.2, hb.1, hb.2, hw1, hw2]⟩
        · exact ⟨_, hconf, by constructor <;> nlinarith [hb.1, hb.2, hw2]⟩
        · exact ⟨_, hconf, by constructor <;> nlinarith [ha.1, ha.2, hw1]⟩
        · exact ⟨_, hconf, by constructor <;>
            nlinarith [ha.1, ha.2, hb.1, hb.2, hw1, hw2]⟩
      · obtain ⟨a, ha2, hfa⟩ := List.mem_filterMap.mp h2
        split_ifs at hfa with hgt
        cases Option.some.inj hfa
        have ha := score_audio_bounds a ca
          (Ha a (unmatched_audio_mem audio video a ha2)) Hao Hax
        exact ⟨_, rfl, by constructor <;> nlinarith [ha.1, ha.2, hw1]⟩
    · obtain ⟨v, hv2, hfv⟩ := List.mem_filterMap.mp h3
      split_ifs at hfv with hcond
      cases Option.some.inj hfv
      have hb := score_video_bounds v cv
        (Hv v (unmatched_video_mem audio video v hv2)) Hvm Hvq
      exact ⟨_, rfl, by constructor <;> nlinarith [hb.1, hb.2, hw2]⟩

/-- Witness for C7 on a concrete run: the single `video_only` output note of
the played, fully-contexted video note has confidence 0.6 ∈ [0,1]. -/
theorem c7_confidence_in_unit_interval_witness :
    ∃ out n c, fuse_predictions [] [vw] emptyCtx cvw = some out ∧ n ∈ out ∧
      n.confidence = some c ∧ 0 ≤ c ∧ c ≤ 1 := by
  obtain ⟨c, hc, h0, h1⟩ :=
    c7_confidence_in_unit_interval [] [vw] emptyCtx cvw _ _
      (by intro m hm; exact absurd hm (by simp))
      (by
        intro m hm c hc
        rcases List.mem_singleton.mp hm with rfl
        rw [show vw.confidence = some 1 from rfl] at hc
        cases Option.some.inj hc
        norm_num)
      (by intro o ho; exact absurd ho (by simp [emptyCtx]))
      (by intro x hx; exact absurd hx (by simp [emptyCtx]))
      (by
        intro m hm
        rw [show cvw.position_clarity = some 1 from rfl] at hm
        cases Option.some.inj hm
        norm_num)
      (by
        intro q hq
        rw [show cvw.calibration_quality = some 1 from rfl] at hq
        cases Option.some.inj hq
        norm_num)
      fuse_eval_c2 (List.mem_cons_self _ _)
  exact ⟨_, _, c, fuse_eval_c2, List.mem_cons_self _ _, hc, h0, h1⟩

/-! ## C4: permutation invariance of the time matcher -/

/-- The multiset of audio notes at indices not yet used by the matcher. -/
noncomputable def availM (audio : List NoteD) (used : Finset ℕ) : Multiset NoteD :=
  ((audio.enum.filter fun p => p.1 ∉ used).map Prod.snd : List NoteD)

lemma mem_availM {audio : List NoteD} {used : Finset ℕ} {b : NoteD} :
    b ∈ availM audio used ↔ ∃ i, (i, b) ∈ audio.enum ∧ i ∉ used := by
  simp only [availM, Multiset.mem_coe, List.mem_map, List.mem_filter]
  constructor
  · rintro ⟨⟨i, a⟩, ⟨hm, hu⟩, rfl⟩
    exact ⟨i, hm, by simpa using hu⟩
  · rintro ⟨i, hm, hu⟩
    exact ⟨(i, b), ⟨hm, by simpa using hu⟩, rfl⟩

lemma availM_le (audio : List NoteD) (used : Finset ℕ) :
    availM audio used ≤ (audio : Multiset NoteD) := by
  have h1 : List.Sublist (audio.enum.filter fun p => p.1 ∉ used) audio.enum :=
    List.filter_sublist _
  have h2 := (h1.map Prod.snd).subperm
  rw [List.enum_map_snd] at h2
  exact h2

lemma findBestAudioLoop_some_ne_none :
    ∀ (l : List (ℕ × NoteD)) (used : Finset ℕ) (vt : ℝ) (b : ℕ × NoteD × ℝ),
    findBestAudioLoop l used vt (some b) ≠ none := by
  intro l
  induction l with
  | nil => intro used vt b h; exact Option.noConfusion h
  | cons p rest ih =>
      intro used vt b
      rcases p with ⟨i, a⟩
      simp only [findBestAudioLoop]
      split_ifs <;> apply ih

lemma findBestAudioLoop_none :
    ∀ (l : List (ℕ × NoteD)) (used : Finset ℕ) (vt : ℝ)
      (best : Option (ℕ × NoteD × ℝ)),
    findBestAudioLoop l used vt best = none →
    best = none ∧ ∀ p ∈ l, p.1 ∉ used → ¬(|audioTime p.2 - vt| < timeTolerance) := by
  intro l
  induction l with
  | nil => intro used vt best h; exact ⟨h, by simp⟩
  | cons p rest ih =>
      intro used vt best h
      rcases p with ⟨i, a⟩
      simp only [findBestAudioLoop] at h
      by_cases hused : i ∈ used
      · rw [if_pos hused] at h
        obtain ⟨h1, h2⟩ := ih used vt best h
        refine ⟨h1, ?_⟩
        intro q hq hqu
        rcases List.mem_cons.mp hq with rfl | hq2
        · exact absurd hused hqu
        · exact h2 q hq2 hqu
      · rw [if_neg hused] at h
        by_cases hcond : |audioTime a - vt| < timeTolerance ∧
            ∀ b0 ∈ best, |audioTime a - vt| < b0.2.2
        · rw [if_pos hcond] at h
          exact absurd h (findBestAudioLoop_some_ne_none rest used vt _)
        · rw [if_neg hcond] at h
          obtain ⟨h1, h2⟩ := ih used vt best h
          subst h1
          refine ⟨rfl, ?_⟩
          intro q hq hqu
          rcases List.mem_cons.mp hq with rfl | hq2
          · intro hd
            exact hcond ⟨hd, by simp⟩
          · exact h2 q hq2 hqu

lemma findBestAudioLoop_props :
    ∀ (l : List (ℕ × NoteD)) (used : Finset ℕ) (vt : ℝ)
      (best : Option (ℕ × NoteD × ℝ)) (b : ℕ × NoteD × ℝ),
    findBestAudioLoop l used vt best = some b →
    best = some b ∨
      (b.1 ∉ used ∧ b.2.2 = |audioTime b.2.1 - vt| ∧ b.2.2 < timeTolerance) := by
  intro l
  induction l with
  | nil => intro used vt best b h; exact Or.inl h
  | cons p rest ih =>
      intro used vt best b h
      rcases p with ⟨i, a⟩
      simp only [findBestAudioLoop] at h
      by_cases hused : i ∈ used
      · rw [if_pos hused] at h
        exact ih used vt best b h
      · rw [if_neg hused] at h
        by_cases hcond : |audioTime a - vt| < timeTolerance ∧
            ∀ b0 ∈ best, |audioTime a - vt| < b0.2.2
        · rw [if_pos hcond] at h
          rcases ih used vt _ b h with hb | hb
          · cases Option.some.inj hb
            exact Or.inr ⟨hused, rfl, hcond.1⟩
          · exact Or.inr hb
        · rw [if_neg hcond] at h
          exact ih used vt best b h

lemma findBestAudioLoop_min :
    ∀ (l : List (ℕ × NoteD)) (used : Finset ℕ) (vt : ℝ)
      (best : Option (ℕ × NoteD × ℝ)) (b : ℕ × NoteD × ℝ),
    findBestAudioLoop l used vt best = some b →
    (∀ j q, (j, q) ∈ l → j ∉ used → |audioTime q - vt| < timeTolerance →
      b.2.2 ≤ |audioTime q - vt|) ∧
    (∀ b0, best = some b0 → b.2.2 ≤ b0.2.2) := by
  intro l
  induction l with
  | nil =>
      intro used vt best b h
      refine ⟨by simp, ?_⟩
      intro b0 hb0
      have : some b0 = some b := hb0 ▸ h
      cases Option.some.inj this
      exact le_refl _
  | cons p rest ih =>
      intro used vt best b h
      rcases p with ⟨i, a⟩
      simp only [findBestAudioLoop] at h
      by_cases hused : i ∈ used
      · rw [if_pos hused] at h
        obtain ⟨ih1, ih2⟩ := ih used vt best b h
        refine ⟨?_, ih2⟩
        intro j q hq hju hdq
        rcases List.mem_cons.mp hq with heq | hq2
        · cases heq; exact absurd hused hju
        · exact ih1 j q hq2 hju hdq
      · rw [if_neg hused] at h
        by_cases hcond : |audioTime a - vt| < timeTolerance ∧
            ∀ b0 ∈ best, |audioTime a - vt| < b0.2.2
        · rw [if_pos hcond] at h
          obtain ⟨ih1, ih2⟩ := ih used vt _ b h
          have hd := ih2 (i, a, |audioTime a - vt|) rfl
          refine ⟨?_, ?_⟩
          · intro j q hq hju hdq
            rcases List.mem_cons.mp hq with heq | hq2
            · cases heq; exact hd
            · exact ih1 j q hq2 hju hdq
          · intro b0 hb0
            have hlt := hcond.2 b0 (by rw [hb0]; rfl)
            exact hd.trans (le_of_lt hlt)
        · rw [if_neg hcond] at h
          obtain ⟨ih1, ih2⟩ := ih used vt best b h
          refine ⟨?_, ih2⟩
          intro j q hq hju hdq
          rcases List.mem_cons.mp hq with heq | hq2
          · cases heq
            push_neg at hcond
            obtain ⟨b0, hb0, hge⟩ := hcond hdq
            exact (ih2 b0 (Option.mem_def.mp hb0)).trans hge
          · exact ih1 j q hq2 hju hdq

lemma availM_insert (audio : List NoteD) (used : Finset ℕ) (i : ℕ) (a : NoteD)
    (hmem : (i, a) ∈ audio.enum) (hnu : i ∉ used) :
    availM audio used = a ::ₘ availM audio (insert i used) := by
  obtain ⟨s, t, hst⟩ := List.append_of_mem hmem
  have hnodup := List.nodup_enum_map_fst audio
  rw [hst, List.map_append, List.map_cons] at hnodup
  rw [List.nodup_append] at hnodup
  obtain ⟨_, hnd2, hdisj⟩ := hnodup
  have hit : i ∉ t.map Prod.fst := by
    have := List.nodup_cons.mp hnd2
    exact this.1
  have his : i ∉ s.map Prod.fst := by
    intro hmem2
    exact hdisj hmem2 (List.mem_cons_self _ _)
  have hfs : ∀ (u : Finset ℕ), List.filter (fun p => decide (p.1 ∉ u)) s =
      List.filter (fun p => decide (p.1 ∉ used)) s →
      True := fun _ _ => trivial
  have hcongr : ∀ (l : List (ℕ × NoteD)), i ∉ l.map Prod.fst →
      List.filter (fun p => decide (p.1 ∉ insert i used)) l =
      List.filter (fun p => decide (p.1 ∉ used)) l := by
    intro l hl
    apply List.filter_congr
    intro x hx
    have hxi : x.1 ≠ i := by
      intro hxe
      exact hl (hxe ▸ List.mem_map_of_mem Prod.fst hx)
    have hiff : x.1 ∉ insert i used ↔ x.1 ∉ used := by
      simp [Finset.mem_insert, hxi]
    exact decide_eq_decide.mpr hiff
  unfold availM
  rw [hst, List.filter_append, List.filter_append, List.filter_cons,
    List.filter_cons]
  rw [if_pos (by simpa using hnu), if_neg (by simp)]
  rw [hcongr s his, hcongr t hit]
  rw [List.map_append, List.map_append, List.map_cons]
  rw [← Multiset.coe_add, ← Multiset.coe_add, ← Multiset.cons_coe,
    Multiset.add_cons]

lemma findBest_some_avail (audio : List NoteD) (used : Finset ℕ) (vt : ℝ)
    (b : ℕ × NoteD × ℝ)
    (h : findBestAudioLoop audio.enum used vt none = some b) :
    b.2.1 ∈ availM audio used ∧ (b.1, b.2.1) ∈ audio.enum ∧ b.1 ∉ used ∧
    b.2.2 = |audioTime b.2.1 - vt| ∧ b.2.2 < timeTolerance ∧
    ∀ q ∈ availM audio used, |audioTime q - vt| < timeTolerance →
      b.2.2 ≤ |audioTime q - vt| := by
  have hm := findBestAudioLoop_mem audio.enum used vt none b h
  have hp := findBestAudioLoop_props audio.enum used vt none b h
  have hmin := (findBestAudioLoop_min audio.enum used vt none b h).1
  rcases hm with hm | hm
  swap
  · exact absurd hm (by simp)
  rcases hp with hp | hp
  · exact absurd hp (by simp)
  obtain ⟨hnu, hdeq, hdlt⟩ := hp
  refine ⟨mem_availM.mpr ⟨b.1, hm, hnu⟩, hm, hnu, hdeq, hdlt, ?_⟩
  intro q hq hdq
  obtain ⟨j, hjm, hju⟩ := mem_availM.mp hq
  exact hmin j q hjm hju hdq

lemma findBest_value_unique
    (audio audio2 : List NoteD) (used used2 : Finset ℕ) (vt : ℝ)
    (heq : availM audio used = availM audio2 used2)
    (hpair : Multiset.Pairwise
      (fun x y => |audioTime x - vt| ≠ |audioTime y - vt|)
      (audio : Multiset NoteD))
    (b b2 : ℕ × NoteD × ℝ)
    (h1 : findBestAudioLoop audio.enum used vt none = some b)
    (h2 : findBestAudioLoop audio2.enum used2 vt none = some b2) :
    b.2.1 = b2.2.1 := by
  obtain ⟨hav1, _, _, hd1, hlt1, hmin1⟩ := findBest_some_avail audio used vt b h1
  obtain ⟨hav2, _, _, hd2, hlt2, hmin2⟩ :=
    findBest_some_avail audio2 used2 vt b2 h2
  have hav2' : b2.2.1 ∈ availM audio used := by rw [heq]; exact hav2
  have hav1' : b.2.1 ∈ availM audio2 used2 := by rw [← heq]; exact hav1
  have hle1 : b.2.2 ≤ |audioTime b2.2.1 - vt| :=
    hmin1 _ hav2' (hd2 ▸ hlt2)
  have hle2 : b2.2.2 ≤ |audioTime b.2.1 - vt| :=
    hmin2 _ hav1' (hd1 ▸ hlt1)
  by_cases hv : b.2.1 = b2.2.1
  · exact hv
  · have heqd : |audioTime b.2.1 - vt| = |audioTime b2.2.1 - vt| := by
      rw [hd1] at hle1
      rw [hd2] at hle2
      exact le_antisymm hle1 hle2
    have hmem1 : b.2.1 ∈ (audio : Multiset NoteD) :=
      Multiset.mem_of_le (availM_le audio used) hav1
    have hmem2 : b2.2.1 ∈ (audio : Multiset NoteD) :=
      Multiset.mem_of_le (availM_le audio used) hav2'
    have hsym : Symmetric
        (fun x y : NoteD => |audioTime x - vt| ≠ |audioTime y - vt|) :=
      fun x y hxy => hxy.symm
    exact absurd heqd (hpair.forall hsym hmem1 hmem2 hv)

lemma matchNotesLoop_pairs_eq :
    ∀ (vl : List (ℕ × NoteD)) (audio audio2 : List NoteD)
      (used used2 : Finset ℕ),
    availM audio used = availM audio2 used2 →
    (∀ q ∈ vl, Multiset.Pairwise
      (fun x y => |audioTime x - videoTime q.2| ≠ |audioTime y - videoTime q.2|)
      (audio : Multiset NoteD)) →
    (matchNotesLoop audio used vl).1 = (matchNotesLoop audio2 used2 vl).1 := by
  intro vl
  induction vl with
  | nil => intro audio audio2 used used2 _ _; rfl
  | cons q rest ih =>
      intro audio audio2 used used2 heq hpair
      rcases q with ⟨vi, v⟩
      simp only [matchNotesLoop]
      rcases h1 : findBestAudioLoop audio.enum used (videoTime v) none
        with _ | ⟨i, a, d⟩ <;>
        rcases h2 : findBestAudioLoop audio2.enum used2 (videoTime v) none
          with _ | ⟨i2, a2, d2⟩
      · exact ih audio audio2 used used2 heq
          (fun q hq => hpair q (List.mem_cons_of_mem _ hq))
      · obtain ⟨hav2, _, _, hd2, hlt2, _⟩ :=
          findBest_some_avail audio2 used2 _ _ h2
        have hav2' : (i2, a2, d2).2.1 ∈ availM audio used := by
          rw [heq]; exact hav2
        obtain ⟨j, hjm, hju⟩ := mem_availM.mp hav2'
        have hno := (findBestAudioLoop_none audio.enum used _ none h1).2
          (j, a2) hjm hju
        rw [hd2] at hlt2
        exact absurd hlt2 hno
      · obtain ⟨hav1, _, _, hd1, hlt1, _⟩ :=
          findBest_some_avail audio used _ _ h1
        have hav1' : (i, a, d).2.1 ∈ availM audio2 used2 := by
          rw [← heq]; exact hav1
        obtain ⟨j, hjm, hju⟩ := mem_availM.mp hav1'
        have hno := (findBestAudioLoop_none audio2.enum used2 _ none h2).2
          (j, a) hjm hju
        rw [hd1] at hlt1
        exact absurd hlt1 hno
      · have hval : a = a2 := findBest_value_unique audio audio2 used used2
          (videoTime v) heq (hpair (vi, v) (List.mem_cons_self _ _)) _ _ h1 h2
        obtain ⟨_, hm1, hnu1, _, _, _⟩ := findBest_some_avail audio used _ _ h1
        obtain ⟨_, hm2, hnu2, _, _, _⟩ :=
          findBest_some_avail audio2 used2 _ _ h2
        have hins1 := availM_insert audio used i a hm1 hnu1
        have hins2 := availM_insert audio2 used2 i2 a2 hm2 hnu2
        have hnew : availM audio (insert i used) =
            availM audio2 (insert i2 used2) := by
          have hc : a ::ₘ availM audio (insert i used) =
              a ::ₘ availM audio2 (insert i2 used2) := by
            rw [← hins1, heq, hins2, hval]
          exact (Multiset.cons_inj_right _).mp hc
        have htail := ih audio audio2 (insert i used) (insert i2 used2) hnew
          (fun q hq => hpair q (List.mem_cons_of_mem _ hq))
        dsimp only
        rw [hval, htail]

/-- Two audio notes equidistant (0.1 s) from the video note at time 0: the
greedy matcher picks whichever comes first in the list. -/
def ca1m : NoteD := { time := some 0.1 }
def ca2m : NoteD := { time := some (-0.1) }
def cv4 : NoteD := { time := some 0 }

lemma abs_ca1m : |audioTime ca1m - videoTime cv4| = 0.1 := by
  rw [show audioTime ca1m = 0.1 from rfl, show videoTime cv4 = 0 from rfl]
  rw [show (0.1 : ℝ) - 0 = 0.1 by norm_num]
  exact abs_of_nonneg (by norm_num)

lemma abs_ca2m : |audioTime ca2m - videoTime cv4| = 0.1 := by
  rw [show audioTime ca2m = -0.1 from rfl, show videoTime cv4 = 0 from rfl]
  rw [show (-0.1 : ℝ) - 0 = -(0.1) by norm_num, abs_neg]
  exact abs_of_nonneg (by norm_num)

lemma fbal_c4_1 :
    findBestAudioLoop [(0, ca1m), (1, ca2m)] ∅ (videoTime cv4) none =
      some (0, ca1m, |audioTime ca1m - videoTime cv4|) := by
  simp only [findBestAudioLoop]
  rw [if_neg (show ¬((0 : ℕ) ∈ (∅ : Finset ℕ)) by simp)]
  rw [if_pos ⟨by rw [abs_ca1m]; norm_num [timeTolerance], by simp⟩]
  rw [if_neg (show ¬((1 : ℕ) ∈ (∅ : Finset ℕ)) by simp)]
  rw [if_neg ?hc]
  case hc =>
    rintro ⟨-, hall⟩
    have hx := hall (0, ca1m, |audioTime ca1m - videoTime cv4|) rfl
    rw [abs_ca1m, abs_ca2m] at hx
    exact absurd hx (by norm_num)

lemma fbal_c4_2 :
    findBestAudioLoop [(0, ca2m), (1, ca1m)] ∅ (videoTime cv4) none =
      some (0, ca2m, |audioTime ca2m - videoTime cv4|) := by
  simp only [findBestAudioLoop]
  rw [if_neg (show ¬((0 : ℕ) ∈ (∅ : Finset ℕ)) by simp)]
  rw [if_pos ⟨by rw [abs_ca2m]; norm_num [timeTolerance], by simp⟩]
  rw [if_neg (show ¬((1 : ℕ) ∈ (∅ : Finset ℕ)) by simp)]
  rw [if_neg ?hc]
  case hc =>
    rintro ⟨-, hall⟩
    have hx := hall (0, ca2m, |audioTime ca2m - videoTime cv4|) rfl
    rw [abs_ca1m, abs_ca2m] at hx
    exact absurd hx (by norm_num)

lemma pairs_c4_1 :
    (match_notes_by_time [ca1m, ca2m] [cv4]).1 = [(ca1m, cv4)] := by
  unfold match_notes_by_time
  dsimp only
  rw [show ([cv4].enum) = [(0, cv4)] from rfl]
  simp only [matchNotesLoop]
  rw [show ([ca1m, ca2m].enum) = [(0, ca1m), (1, ca2m)] from rfl]
  rw [fbal_c4_1]

lemma pairs_c4_2 :
    (match_notes_by_time [ca2m, ca1m] [cv4]).1 = [(ca2m, cv4)] := by
  unfold match_notes_by_time
  dsimp only
  rw [show ([cv4].enum) = [(0, cv4)] from rfl]
  simp only [matchNotesLoop]
  rw [show ([ca2m, ca1m].enum) = [(0, ca2m), (1, ca1m)] from rfl]
  rw [fbal_c4_2]

/-- C4 as stated is false: with two audio notes equidistant from a video
note, permuting the audio list changes which audio note is matched, so the
matched-pair set changes. -/
theorem c4_tie_counterexample :
    List.Perm [ca2m, ca1m] [ca1m, ca2m] ∧
    (ca1m, cv4) ∈ (match_notes_by_time [ca1m, ca2m] [cv4]).1 ∧
    (ca1m, cv4) ∉ (match_notes_by_time [ca2m, ca1m] [cv4]).1 := by
  refine ⟨List.Perm.swap _ _ _, ?_, ?_⟩
  · rw [pairs_c4_1]
    exact List.mem_singleton.mpr rfl
  · rw [pairs_c4_2]
    intro hmem
    obtain ⟨h, -⟩ := Prod.mk.injEq .. ▸ List.mem_singleton.mp hmem
    have ht : (some (0.1 : ℝ) : Option ℝ) = some (-0.1 : ℝ) :=
      congrArg NoteD.time h
    have := Option.some.inj ht
    norm_num at this

/-- C4 (amended): permuting the audio list (video list fixed) leaves the
matched-pair list of `_match_notes_by_time` unchanged, provided no two
distinct audio entries lie at exactly the same absolute time difference
from any video note (with a tie, the greedy matcher picks the first-listed
audio note, and the matched-pair set can change). -/
theorem c4_matching_permutation_invariant
    (audio audio2 video : List NoteD) (hperm : List.Perm audio audio2)
    (hd : ∀ v ∈ video, Multiset.Pairwise
      (fun x y => |audioTime x - videoTime v| ≠ |audioTime y - videoTime v|)
      (audio : Multiset NoteD)) :
    (match_notes_by_time audio video).1 =
      (match_notes_by_time audio2 video).1 := by
  unfold match_notes_by_time
  dsimp only
  apply matchNotesLoop_pairs_eq
  · have h1 : ∀ l : List NoteD, availM l ∅ = (l : Multiset NoteD) := by
      intro l
      unfold availM
      rw [show (l.enum.filter fun p => p.1 ∉ (∅ : Finset ℕ)) = l.enum from by
        apply List.filter_eq_self.mpr
        intro p _
        simp]
      rw [List.enum_map_snd]
    rw [h1, h1]
    exact Multiset.coe_eq_coe.mpr hperm
  · intro q hq
    refine hd q.2 ?_
    rw [← List.enum_map_snd video]
    exact List.mem_map_of_mem Prod.snd hq

/-- A video note at 0.05 s: the two audio notes are at distances 0.05 and
0.15 from it, so the no-tie hypothesis holds. -/
def cv4b : NoteD := { time := some 0.05 }

/-- Witness for the amended C4: with distinct time differences, swapping the
two audio notes leaves the matched pairs unchanged. -/
theorem c4_matching_permutation_invariant_witness :
    (match_notes_by_time [ca1m, ca2m] [cv4b]).1 =
      (match_notes_by_time [ca2m, ca1m] [cv4b]).1 := by
  apply c4_matching_permutation_invariant
  · exact List.Perm.swap _ _ _
  · intro v hv
    rcases List.mem_singleton.mp hv with rfl
    refine ⟨[ca1m, ca2m], rfl, ?_⟩
    refine List.pairwise_cons.mpr ⟨?_, List.pairwise_singleton _ _⟩
    intro b hb
    rcases List.mem_singleton.mp hb with rfl
    rw [show audioTime ca1m = 0.1 from rfl, show audioTime ca2m = -0.1 from rfl,
      show videoTime cv4b = 0.05 from rfl]
    rw [show (0.1 : ℝ) - 0.05 = 0.05 by norm_num,
      show (-0.1 : ℝ) - 0.05 = -(0.15) by norm_num, abs_neg]
    rw [abs_of_nonneg (show (0 : ℝ) ≤ 0.05 by norm_num),
      abs_of_nonneg (show (0 : ℝ) ≤ 0.15 by norm_num)]
    norm_num
